import Mathlib

set_option maxRecDepth 1000000
set_option maxHeartbeats 2000000

/-!
# Verification of the shape-detection pipeline (src/src/main.ts)

Shallow embedding of the `ShapeDetector` class. Pixel coordinates are
integers (`Point`), image buffers are `List ℕ` of RGBA bytes, boolean
image masks are `List Bool` indexed by `y * width + x` as in the source.

JavaScript `number` arithmetic is modelled over `ℝ` (with `ℚ`/`ℤ` for
the values the source computes exactly: coordinates, Manhattan
distances, the shoelace sum, bounding boxes).  Every unbounded source
loop is embedded with an explicit fuel argument that provably dominates
the source loop's iteration count, so that all state-machine
definitions are structurally recursive and kernel-evaluable.

For each real-valued branch decision the development also provides a
computable "squared"-arithmetic twin together with a lemma that the
faithful definition and the twin agree; the twins are used to evaluate
the pipeline on concrete images inside the kernel.
-/

/-- `Point`: integer pair in image coordinates (source `interface Point`). -/
structure Point where
  x : ℤ
  y : ℤ
deriving DecidableEq, Repr

instance : Inhabited Point := ⟨⟨0, 0⟩⟩

/-- The eight neighbour offsets `(dx, dy)` in the order the source's nested
`for (dy) for (dx)` loops produce them (skipping `(0,0)`). -/
def neighborOffsets : List (ℤ × ℤ) :=
  [(-1, -1), (0, -1), (1, -1), (-1, 0), (1, 0), (-1, 1), (0, 1), (1, 1)]

/-- One while-loop of `floodFill` (src lines 142–182), with the mutable
`visited` boolean array passed explicitly and the JS array used as a stack
modelled as a list whose head is the array's end (`push`/`pop` site).
State: `(visited, stack, allPoints, boundaryPoints)`.  `fuel` bounds the
number of loop iterations; each iteration pops exactly one entry and at
most `1 + 8·(number of dark pixels)` entries are ever pushed, so
`9·width·height + 1` fuel never runs out. -/
def floodFillLoop (binary : List Bool) (width height : ℕ) :
    ℕ → List Bool → List Point → List Point → List Point →
    List Bool × List Point × List Point
  | 0, visited, _, allPoints, boundaryPoints => (visited, allPoints, boundaryPoints)
  | _ + 1, visited, [], allPoints, boundaryPoints => (visited, allPoints, boundaryPoints)
  | fuel + 1, visited, p :: rest, allPoints, boundaryPoints =>
    if p.x < 0 ∨ (width : ℤ) ≤ p.x ∨ p.y < 0 ∨ (height : ℤ) ≤ p.y then
      floodFillLoop binary width height fuel visited rest allPoints boundaryPoints
    else
      let index := (p.y * width + p.x).toNat
      if visited.getD index false ∨ ¬ binary.getD index false then
        floodFillLoop binary width height fuel visited rest allPoints boundaryPoints
      else
        let isBoundary := neighborOffsets.any fun d =>
          let nx := p.x + d.1
          let ny := p.y + d.2
          decide (nx < 0) || decide ((width : ℤ) ≤ nx) ||
            decide (ny < 0) || decide ((height : ℤ) ≤ ny) ||
            !(binary.getD (ny * width + nx).toNat false)
        floodFillLoop binary width height fuel
          (visited.set index true)
          ((neighborOffsets.map fun d => Point.mk (p.x + d.1) (p.y + d.2)).reverse ++ rest)
          (allPoints ++ [p])
          (if isBoundary then boundaryPoints ++ [p] else boundaryPoints)

/-- First strict minimiser of the Manhattan distance among the remaining
points at distance `≤ 2` (src lines 209–216; `none` plays `minDist = ∞`,
and the JS `Set` is iterated in insertion order, i.e. list order). -/
def manhattanNearest (current : Point) (remaining : List Point) : Option (Point × ℤ) :=
  remaining.foldl
    (fun acc q =>
      let dist := |q.x - current.x| + |q.y - current.y|
      match acc with
      | none => if dist ≤ 2 then some (q, dist) else none
      | some (_, m) => if dist < m ∧ dist ≤ 2 then some (q, dist) else acc)
    none

/-- Euclidean-distance fallback selection (src lines 224–231); when this loop
runs, `minDist` is still `Infinity`, modelled by the `none` accumulator. -/
noncomputable def euclideanNearest (current : Point) (remaining : List Point) :
    Option (Point × ℝ) :=
  remaining.foldl
    (fun acc q =>
      let dist := Real.sqrt (((q.x - current.x) ^ 2 + (q.y - current.y) ^ 2 : ℤ) : ℝ)
      match acc with
      | none => some (q, dist)
      | some (_, m) => if dist < m then some (q, dist) else acc)
    none

/-- Computable twin of `euclideanNearest` comparing squared distances. -/
def euclideanNearestSq (current : Point) (remaining : List Point) : Option (Point × ℤ) :=
  remaining.foldl
    (fun acc q =>
      let dist := (q.x - current.x) ^ 2 + (q.y - current.y) ^ 2
      match acc with
      | none => some (q, dist)
      | some (_, m) => if dist < m then some (q, dist) else acc)
    none

/-- The while-loop of `orderBoundaryPoints` (src lines 205–240).  Each
iteration selects one remaining point (nearest Manhattan point within
distance 2, else nearest Euclidean point) and removes it, so fuel equal to
the initial number of remaining points is exactly enough. -/
noncomputable def orderGo : ℕ → List Point → Point → List Point → List Point
  | 0, _, _, ordered => ordered
  | fuel + 1, remaining, current, ordered =>
    if remaining.isEmpty then ordered
    else
      match manhattanNearest current remaining with
      | some (q, _) => orderGo fuel (remaining.erase q) q (ordered ++ [q])
      | none =>
        match euclideanNearest current remaining with
        | some (q, _) => orderGo fuel (remaining.erase q) q (ordered ++ [q])
        | none => ordered

/-- Computable twin of `orderGo` using `euclideanNearestSq`. -/
def orderGoSq : ℕ → List Point → Point → List Point → List Point
  | 0, _, _, ordered => ordered
  | fuel + 1, remaining, current, ordered =>
    if remaining.isEmpty then ordered
    else
      match manhattanNearest current remaining with
      | some (q, _) => orderGoSq fuel (remaining.erase q) q (ordered ++ [q])
      | none =>
        match euclideanNearestSq current remaining with
        | some (q, _) => orderGoSq fuel (remaining.erase q) q (ordered ++ [q])
        | none => ordered

/-- `orderBoundaryPoints` (src lines 196–243).  The JS `Set` of string keys
`"x,y"` is modelled as the point list itself: the key encoding is injective
on integer points, the set iterates in insertion order, and every caller
passes a duplicate-free list (flood fill marks each pixel at most once), so
the set's construction-time deduplication never discards anything. -/
noncomputable def orderBoundaryPoints (boundaryPoints allPoints : List Point) : List Point :=
  match boundaryPoints with
  | [] => allPoints
  | b0 :: rest =>
    let ordered := orderGo rest.length rest b0 [b0]
    if 0 < ordered.length then ordered else allPoints

/-- Computable twin of `orderBoundaryPoints`. -/
def orderBoundaryPointsSq (boundaryPoints allPoints : List Point) : List Point :=
  match boundaryPoints with
  | [] => allPoints
  | b0 :: rest =>
    let ordered := orderGoSq rest.length rest b0 [b0]
    if 0 < ordered.length then ordered else allPoints

/-- `floodFill` (src lines 130–191): run the loop from the start pixel, then
order the boundary points if any exist.  Returns the updated `visited`
array together with the contour the source returns. -/
noncomputable def floodFill (binary : List Bool) (visited : List Bool)
    (startX startY : ℤ) (width height : ℕ) : List Bool × List Point :=
  let r := floodFillLoop binary width height (9 * width * height + 1) visited
    [⟨startX, startY⟩] [] []
  (r.1, if 0 < r.2.2.length then orderBoundaryPoints r.2.2 r.2.1 else r.2.1)

/-- Raster-scan positions `(x, y)` in the order of the source's nested
`for (y) for (x)` loops (src lines 112–113). -/
def scanPositions (width height : ℕ) : List (ℕ × ℕ) :=
  (List.range height).flatMap fun y => (List.range width).map fun x => (x, y)

/-- The scan loop of `findContours` (src lines 112–122), threading the
shared `visited` array through the flood fills. -/
noncomputable def findContoursGo (binary : List Bool) (width height : ℕ) :
    List (ℕ × ℕ) → List Bool → List (List Point) → List (List Point)
  | [], _, contours => contours
  | (x, y) :: rest, visited, contours =>
    let index := y * width + x
    if binary.getD index false ∧ ¬ visited.getD index false then
      let r := floodFill binary visited x y width height
      if 10 < r.2.length then
        findContoursGo binary width height rest r.1 (contours ++ [r.2])
      else
        findContoursGo binary width height rest r.1 contours
    else
      findContoursGo binary width height rest visited contours

/-- `findContours` (src lines 108–125). -/
noncomputable def findContours (binary : List Bool) (width height : ℕ) :
    List (List Point) :=
  findContoursGo binary width height (scanPositions width height)
    (List.replicate (width * height) false) []

/-! ## Geometry: point-to-segment distance and Douglas–Peucker -/

/-- `pointToLineDistance` (src lines 278–306), over `ℝ`. -/
noncomputable def pointToLineDistance (point lineStart lineEnd : Point) : ℝ :=
  let A : ℝ := ((point.x - lineStart.x : ℤ) : ℝ)
  let B : ℝ := ((point.y - lineStart.y : ℤ) : ℝ)
  let C : ℝ := ((lineEnd.x - lineStart.x : ℤ) : ℝ)
  let D : ℝ := ((lineEnd.y - lineStart.y : ℤ) : ℝ)
  let dot := A * C + B * D
  let lenSq := C * C + D * D
  let param := if lenSq ≠ 0 then dot / lenSq else -1
  let xy :=
    if param < 0 then (((lineStart.x : ℤ) : ℝ), ((lineStart.y : ℤ) : ℝ))
    else if 1 < param then (((lineEnd.x : ℤ) : ℝ), ((lineEnd.y : ℤ) : ℝ))
    else (((lineStart.x : ℤ) : ℝ) + param * C, ((lineStart.y : ℤ) : ℝ) + param * D)
  let dx := ((point.x : ℤ) : ℝ) - xy.1
  let dy := ((point.y : ℤ) : ℝ) - xy.2
  Real.sqrt (dx * dx + dy * dy)

/-- Computable twin of `pointToLineDistance`: the squared distance as an
integer fraction `(numerator, positive denominator)`.  The three branches
correspond to `param < 0` (including the `lenSq = 0` case, where the source
leaves `param = -1`), `param > 1`, and the interior projection, whose
squared distance is `(A·D − B·C)² / lenSq` by the Lagrange identity. -/
def pointToLineDistancePair (point lineStart lineEnd : Point) : ℤ × ℤ :=
  let A := point.x - lineStart.x
  let B := point.y - lineStart.y
  let C := lineEnd.x - lineStart.x
  let D := lineEnd.y - lineStart.y
  let dot := A * C + B * D
  let lenSq := C * C + D * D
  if lenSq = 0 then (A ^ 2 + B ^ 2, 1)
  else if dot < 0 then (A ^ 2 + B ^ 2, 1)
  else if lenSq < dot then ((point.x - lineEnd.x) ^ 2 + (point.y - lineEnd.y) ^ 2, 1)
  else ((A * D - B * C) ^ 2, lenSq)

/-- The farthest-point scan of `simplifyContour` (src lines 252–263):
returns `(maxDist, maxIndex)` starting from `(0, 0)`. -/
noncomputable def farthest (contour : List Point) : ℝ × ℕ :=
  (List.range' 1 (contour.length - 2)).foldl
    (fun acc i =>
      let dist := pointToLineDistance (contour.getD i default) (contour.getD 0 default)
        (contour.getD (contour.length - 1) default)
      if acc.1 < dist then (dist, i) else acc)
    (0, 0)

/-- Computable twin of `farthest` over squared-distance fractions. -/
def farthestPair (contour : List Point) : (ℤ × ℤ) × ℕ :=
  (List.range' 1 (contour.length - 2)).foldl
    (fun acc i =>
      let dist := pointToLineDistancePair (contour.getD i default) (contour.getD 0 default)
        (contour.getD (contour.length - 1) default)
      if acc.1.1 * dist.2 < dist.1 * acc.1.2 then (dist, i) else acc)
    ((0, 1), 0)

/-- The recursion of `simplifyContour` (src lines 248–273) with explicit
fuel.  With the source's tolerance (`epsilon = 2 ≥ 0`) a positive maximum
distance forces `1 ≤ maxIndex ≤ length − 2`, so both slices are strictly
shorter than the input and fuel equal to the input length never runs out. -/
noncomputable def simplifyGo : ℕ → List Point → ℝ → List Point
  | 0, contour, _ => contour
  | fuel + 1, contour, epsilon =>
    if contour.length ≤ 2 then contour
    else
      let m := farthest contour
      if epsilon < m.1 then
        (simplifyGo fuel (contour.take (m.2 + 1)) epsilon).dropLast ++
          simplifyGo fuel (contour.drop m.2) epsilon
      else
        [contour.getD 0 default, contour.getD (contour.length - 1) default]

/-- `simplifyContour` (src lines 248–273). -/
noncomputable def simplifyContour (contour : List Point) (epsilon : ℝ) : List Point :=
  simplifyGo contour.length contour epsilon

/-- Computable twin of `simplifyGo` specialised to the source's tolerance
`epsilon = 2`: the branch test `2 < √(n/d)` becomes `4·d < n`. -/
def simplifyGoPair : ℕ → List Point → List Point
  | 0, contour => contour
  | fuel + 1, contour =>
    if contour.length ≤ 2 then contour
    else
      let m := farthestPair contour
      if 4 * m.1.2 < m.1.1 then
        (simplifyGoPair fuel (contour.take (m.2 + 1))).dropLast ++
          simplifyGoPair fuel (contour.drop m.2)
      else
        [contour.getD 0 default, contour.getD (contour.length - 1) default]

/-! ## Shape descriptors (src lines 438–525) -/

/-- Result of `calculateBounds` (src lines 479–495). -/
structure Bounds where
  minX : ℤ
  minY : ℤ
  width : ℤ
  height : ℤ
deriving DecidableEq, Repr

/-- `calculateBounds` (src lines 479–495).  The source folds min/max from
`±Infinity` over all points; for a nonempty list this equals folding from
the first point.  All callers pass nonempty lists (contours of length > 10);
the `[]` value is junk. -/
def calculateBounds : List Point → Bounds
  | [] => ⟨0, 0, 1, 1⟩
  | p :: ps =>
    let minX := ps.foldl (fun m q => min m q.x) p.x
    let minY := ps.foldl (fun m q => min m q.y) p.y
    let maxX := ps.foldl (fun m q => max m q.x) p.x
    let maxY := ps.foldl (fun m q => max m q.y) p.y
    ⟨minX, minY, maxX - minX + 1, maxY - minY + 1⟩

/-- The signed shoelace sum of `calculateArea` (src lines 504–508); exact
integer arithmetic. -/
def shoelaceSum (points : List Point) : ℤ :=
  let n := points.length
  (List.range n).foldl
    (fun area i =>
      let j := (i + 1) % n
      area + (points.getD i default).x * (points.getD j default).y
        - (points.getD j default).x * (points.getD i default).y)
    0

/-- `calculateArea` (src lines 500–511): `|shoelace| / 2`. -/
def calculateArea (points : List Point) : ℚ :=
  ((|shoelaceSum points| : ℤ) : ℚ) / 2

/-- `calculatePerimeter` (src lines 516–525): cyclic sum of Euclidean edge
lengths. -/
noncomputable def calculatePerimeter (points : List Point) : ℝ :=
  (List.range points.length).foldl
    (fun perimeter i =>
      let p := points.getD i default
      let next := points.getD ((i + 1) % points.length) default
      perimeter + Real.sqrt (((next.x - p.x : ℤ) : ℝ) ^ 2 + ((next.y - p.y : ℤ) : ℝ) ^ 2))
    0

/-- `calculateEdgeLengths` (src lines 465–474). -/
noncomputable def calculateEdgeLengths (points : List Point) : List ℝ :=
  (List.range points.length).map fun i =>
    let p := points.getD i default
    let next := points.getD ((i + 1) % points.length) default
    Real.sqrt (((next.x - p.x : ℤ) : ℝ) ^ 2 + ((next.y - p.y : ℤ) : ℝ) ^ 2)

/-- The interior angle at vertex `i` computed by `calculateAngles`
(src lines 442–457).  `(i − 1 + n) % n` is written `(i + n − 1) % n`,
which agrees with the source's JavaScript arithmetic for every `i : ℕ`,
`n ≥ 1`. -/
noncomputable def angleAt (points : List Point) (i : ℕ) : ℝ :=
  let n := points.length
  let prev := points.getD ((i + n - 1) % n) default
  let curr := points.getD i default
  let next := points.getD ((i + 1) % n) default
  let v1x : ℝ := ((prev.x - curr.x : ℤ) : ℝ)
  let v1y : ℝ := ((prev.y - curr.y : ℤ) : ℝ)
  let v2x : ℝ := ((next.x - curr.x : ℤ) : ℝ)
  let v2y : ℝ := ((next.y - curr.y : ℤ) : ℝ)
  let dot := v1x * v2x + v1y * v2y
  let mag1 := Real.sqrt (v1x * v1x + v1y * v1y)
  let mag2 := Real.sqrt (v2x * v2x + v2y * v2y)
  let cosAngle := dot / (mag1 * mag2)
  Real.arccos (max (-1) (min 1 cosAngle)) * (180 / Real.pi)

/-- `calculateAngles` (src lines 438–460). -/
noncomputable def calculateAngles (points : List Point) : List ℝ :=
  (List.range points.length).map (angleAt points)

/-- `Math.min(...list)` for the nonempty lists the classifier produces. -/
noncomputable def listMin : List ℝ → ℝ
  | [] => 0
  | a :: rest => rest.foldl min a

/-- `Math.max(...list)` for the nonempty lists the classifier produces. -/
noncomputable def listMax : List ℝ → ℝ
  | [] => 0
  | a :: rest => rest.foldl max a

/-! ## Shape tests and classification (src lines 311–433) -/

/-- `isTriangle` (src lines 374–381): requires exactly 3 points, then all
angles strictly between 20° and 160°. -/
noncomputable def isTriangle (points : List Point) : Prop :=
  points.length = 3 ∧
    20 < listMin (calculateAngles points) ∧ listMax (calculateAngles points) < 160

/-- `isRectangle` (src lines 386–398): at least 4 points and at least two
angles within 30° of 90°. -/
noncomputable def isRectangle (points : List Point) : Prop :=
  4 ≤ points.length ∧
    2 ≤ ((calculateAngles points).countP fun a => decide (|a - 90| < 30))

/-- `isPentagon` (src lines 403–414): at least 5 points and relative edge
length standard deviation below 0.3. -/
noncomputable def isPentagon (points : List Point) : Prop :=
  5 ≤ points.length ∧
    (let edgeLengths := calculateEdgeLengths points
     let avgLength := edgeLengths.sum / (edgeLengths.length : ℝ)
     let variance :=
       (edgeLengths.map fun l => (l - avgLength) ^ 2).sum / (edgeLengths.length : ℝ)
     Real.sqrt variance / avgLength < 0.3)

/-- `isStar` (src lines 419–433): at least 8 points and at least
`length / 2` adjacent angle pairs differing by more than 30°. -/
noncomputable def isStar (points : List Point) : Prop :=
  8 ≤ points.length ∧
    (let angles := calculateAngles points
     (points.length : ℝ) / 2 ≤
       ((angles.zip angles.tail).countP fun p => decide (30 < |p.1 - p.2|)))

/-- The five shape labels. -/
inductive ShapeType where
  | circle
  | triangle
  | rectangle
  | pentagon
  | star
deriving DecidableEq, Repr

/-- Source `boundingBox` record of a `DetectedShape`. -/
structure BoundingBox where
  x : ℤ
  y : ℤ
  width : ℤ
  height : ℤ
deriving DecidableEq, Repr

/-- `DetectedShape` (src lines 10–21).  Coordinates of `center` and the
`area` are exact rationals; `confidence` is real-valued. -/
structure DetectedShape where
  type : ShapeType
  confidence : ℝ
  boundingBox : BoundingBox
  center : ℚ × ℚ
  area : ℚ

open Classical in
/-- `classifyShape` (src lines 311–369): the fixed decision tree, with the
final `Math.min(1.0, confidence)` clamp applied to each emitted shape. -/
noncomputable def classifyShape (simplified originalContour : List Point) :
    Option DetectedShape :=
  let numVertices := simplified.length
  let bounds := calculateBounds originalContour
  let center : ℚ × ℚ :=
    ((bounds.minX : ℚ) + (bounds.width : ℚ) / 2, (bounds.minY : ℚ) + (bounds.height : ℚ) / 2)
  let area := calculateArea originalContour
  let perimeter := calculatePerimeter simplified
  let circularity : ℝ := 4 * Real.pi * (area : ℝ) / (perimeter * perimeter)
  let emit : ShapeType → ℝ → Option DetectedShape := fun t confidence =>
    some { type := t, confidence := min 1 confidence,
           boundingBox := ⟨bounds.minX, bounds.minY, bounds.width, bounds.height⟩,
           center := center, area := area }
  if 0.85 < circularity ∧ 8 ≤ numVertices then
    emit .circle (min 0.95 (0.7 + circularity * 0.25))
  else if numVertices = 3 ∨ (3 ≤ numVertices ∧ numVertices ≤ 5 ∧ isTriangle simplified) then
    emit .triangle (0.85 + if numVertices = 3 then 0.1 else -0.1)
  else if numVertices = 4 ∨ (4 ≤ numVertices ∧ numVertices ≤ 6 ∧ isRectangle simplified) then
    emit .rectangle (0.9 + if numVertices = 4 then 0.08 else -0.1)
  else if numVertices = 5 ∨ (5 ≤ numVertices ∧ numVertices ≤ 7 ∧ isPentagon simplified) then
    emit .pentagon (0.85 + if numVertices = 5 then 0.1 else -0.1)
  else if 8 ≤ numVertices ∧ numVertices ≤ 12 ∧ isStar simplified then
    emit .star 0.8
  else if 6 ≤ numVertices ∧ numVertices ≤ 8 then
    emit .pentagon 0.75
  else
    none

/-! ## The binarizer and the full pipeline (src lines 47–103) -/

/-- `createBinaryImage` (src lines 89–103): one mask entry per RGBA sample,
`gray = (r + g + b) / 3 < 128`. -/
def createBinaryImage (data : List ℕ) (width height : ℕ) : List Bool :=
  (List.range ((data.length + 3) / 4)).foldl
    (fun binary k =>
      let r := data.getD (4 * k) 0
      let g := data.getD (4 * k + 1) 0
      let b := data.getD (4 * k + 2) 0
      let gray : ℚ := ((r + g + b : ℕ) : ℚ) / 3
      binary.set k (decide (gray < 128)))
    (List.replicate (width * height) false)

/-- Computable twin of `createBinaryImage`: `(r+g+b)/3 < 128 ↔ r+g+b < 384`
over naturals. -/
def createBinaryImageB (data : List ℕ) (width height : ℕ) : List Bool :=
  (List.range ((data.length + 3) / 4)).foldl
    (fun binary k =>
      let r := data.getD (4 * k) 0
      let g := data.getD (4 * k + 1) 0
      let b := data.getD (4 * k + 2) 0
      binary.set k (decide (r + g + b < 384)))
    (List.replicate (width * height) false)

/-- `createBinaryImage` with the caller's pixel buffer threaded through the
loop as explicit state: the loop body only reads `data`, so the buffer
component coming out is the buffer that went in. -/
def createBinaryImageRun (data : List ℕ) (width height : ℕ) : List Bool × List ℕ :=
  (List.range ((data.length + 3) / 4)).foldl
    (fun (st : List Bool × List ℕ) k =>
      let r := st.2.getD (4 * k) 0
      let g := st.2.getD (4 * k + 1) 0
      let b := st.2.getD (4 * k + 2) 0
      let gray : ℚ := ((r + g + b : ℕ) : ℚ) / 3
      (st.1.set k (decide (gray < 128)), st.2))
    (List.replicate (width * height) false, data)

/-- `DetectionResult` (src lines 23–28). -/
structure DetectionResult where
  shapes : List DetectedShape
  processingTime : ℝ
  imageWidth : ℕ
  imageHeight : ℕ

/-- The per-contour loop of `detectShapes` (src lines 60–74). -/
noncomputable def accumulateShapes (contours : List (List Point)) : List DetectedShape :=
  contours.foldl
    (fun shapes contour =>
      if contour.length < 3 then shapes
      else
        let simplified := simplifyContour contour 2
        if simplified.length < 3 then shapes
        else
          match classifyShape simplified contour with
          | some shapeInfo => shapes ++ [shapeInfo]
          | none => shapes)
    []

/-- `detectShapes` (src lines 47–84).  `performance.now()` readings are
modelled as explicit `startTime`/`endTime` inputs; they only reach the
`processingTime` field. -/
noncomputable def detectShapes (data : List ℕ) (width height : ℕ)
    (startTime endTime : ℝ) : DetectionResult :=
  let binary := createBinaryImage data width height
  let contours := findContours binary width height
  { shapes := accumulateShapes contours
    processingTime := endTime - startTime
    imageWidth := width
    imageHeight := height }

/-- `detectShapes` with the caller's pixel buffer threaded as state through
the one phase that reads it. -/
noncomputable def detectShapesRun (data : List ℕ) (width height : ℕ)
    (startTime endTime : ℝ) : DetectionResult × List ℕ :=
  let br := createBinaryImageRun data width height
  let contours := findContours br.1 width height
  ({ shapes := accumulateShapes contours
     processingTime := endTime - startTime
     imageWidth := width
     imageHeight := height }, br.2)

/-! ## Lemmas about the boundary orderer -/

lemma manhattanNearest_mem {current : Point} {remaining : List Point} {q : Point} {d : ℤ}
    (h : manhattanNearest current remaining = some (q, d)) : q ∈ remaining := by
  unfold manhattanNearest at h
  suffices H : ∀ (l : List Point) (acc : Option (Point × ℤ)) (q : Point) (d : ℤ),
      l.foldl
        (fun acc q' =>
          let dist := |q'.x - current.x| + |q'.y - current.y|
          match acc with
          | none => if dist ≤ 2 then some (q', dist) else none
          | some (_, m) => if dist < m ∧ dist ≤ 2 then some (q', dist) else acc)
        acc = some (q, d) →
      acc = some (q, d) ∨ q ∈ l by
    rcases H remaining none q d h with h' | h'
    · exact absurd h' (by simp)
    · exact h'
  intro l
  induction l with
  | nil => intro acc q d h; exact Or.inl h
  | cons a t ih =>
    intro acc q d h
    rcases ih _ q d h with h' | h'
    · revert h'
      rcases acc with _ | ⟨p, m⟩
      · dsimp only
        split
        · intro h'; exact Or.inr (List.mem_cons.mpr (Or.inl (congrArg Prod.fst (Option.some.inj h')).symm))
        · intro h'; exact absurd h' (by simp)
      · dsimp only
        split
        · intro h'; exact Or.inr (List.mem_cons.mpr (Or.inl (congrArg Prod.fst (Option.some.inj h')).symm))
        · intro h'; exact Or.inl h'
    · right; right; exact h'

lemma euclideanNearest_eq_sq (current : Point) (remaining : List Point) :
    euclideanNearest current remaining =
      (euclideanNearestSq current remaining).map fun qd => (qd.1, Real.sqrt ((qd.2 : ℤ) : ℝ)) := by
  unfold euclideanNearest euclideanNearestSq
  suffices H : ∀ (l : List Point) (acc : Option (Point × ℤ)),
      l.foldl
        (fun acc q =>
          let dist := Real.sqrt (((q.x - current.x) ^ 2 + (q.y - current.y) ^ 2 : ℤ) : ℝ)
          match acc with
          | none => some (q, dist)
          | some (_, m) => if dist < m then some (q, dist) else acc)
        (acc.map fun qd => (qd.1, Real.sqrt ((qd.2 : ℤ) : ℝ))) =
      (l.foldl
        (fun acc q =>
          let dist := (q.x - current.x) ^ 2 + (q.y - current.y) ^ 2
          match acc with
          | none => some (q, dist)
          | some (_, m) => if dist < m then some (q, dist) else acc)
        acc).map fun qd => (qd.1, Real.sqrt ((qd.2 : ℤ) : ℝ)) by
    simpa using H remaining none
  intro l
  induction l with
  | nil => intro acc; rfl
  | cons a t ih =>
    intro acc
    rw [List.foldl_cons, List.foldl_cons, ← ih]
    congr 1
    rcases acc with _ | ⟨p, m⟩
    · rfl
    · dsimp only [Option.map]
      have hnn : (0 : ℝ) ≤ (((a.x - current.x) ^ 2 + (a.y - current.y) ^ 2 : ℤ) : ℝ) := by
        push_cast; positivity
      have hnn' : (0 : ℝ) ≤ ((m : ℤ) : ℝ) → True := fun _ => trivial
      by_cases hlt : ((a.x - current.x) ^ 2 + (a.y - current.y) ^ 2 : ℤ) < m
      · have : Real.sqrt (((a.x - current.x) ^ 2 + (a.y - current.y) ^ 2 : ℤ) : ℝ) <
            Real.sqrt ((m : ℤ) : ℝ) :=
          Real.sqrt_lt_sqrt hnn (by exact_mod_cast hlt)
        rw [if_pos this, if_pos hlt]
      · have : ¬ Real.sqrt (((a.x - current.x) ^ 2 + (a.y - current.y) ^ 2 : ℤ) : ℝ) <
            Real.sqrt ((m : ℤ) : ℝ) := by
          intro hc
          exact hlt (by exact_mod_cast (Real.sqrt_lt_sqrt_iff hnn).mp hc)
        rw [if_neg this, if_neg hlt]

lemma euclideanNearestSq_mem {current : Point} {remaining : List Point} {q : Point} {d : ℤ}
    (h : euclideanNearestSq current remaining = some (q, d)) : q ∈ remaining := by
  unfold euclideanNearestSq at h
  suffices H : ∀ (l : List Point) (acc : Option (Point × ℤ)) (q : Point) (d : ℤ),
      l.foldl
        (fun acc q' =>
          let dist := (q'.x - current.x) ^ 2 + (q'.y - current.y) ^ 2
          match acc with
          | none => some (q', dist)
          | some (_, m) => if dist < m then some (q', dist) else acc)
        acc = some (q, d) →
      acc = some (q, d) ∨ q ∈ l by
    rcases H remaining none q d h with h' | h'
    · exact absurd h' (by simp)
    · exact h'
  intro l
  induction l with
  | nil => intro acc q d h; exact Or.inl h
  | cons a t ih =>
    intro acc q d h
    rcases ih _ q d h with h' | h'
    · revert h'
      rcases acc with _ | ⟨p, m⟩
      · dsimp only
        intro h'; exact Or.inr (List.mem_cons.mpr (Or.inl (congrArg Prod.fst (Option.some.inj h')).symm))
      · dsimp only
        split
        · intro h'; exact Or.inr (List.mem_cons.mpr (Or.inl (congrArg Prod.fst (Option.some.inj h')).symm))
        · intro h'; exact Or.inl h'
    · right; right; exact h'

lemma euclideanNearestSq_isSome {current : Point} {remaining : List Point}
    (h : remaining ≠ []) : (euclideanNearestSq current remaining).isSome := by
  unfold euclideanNearestSq
  rcases remaining with _ | ⟨a, t⟩
  · exact absurd rfl h
  rw [List.foldl_cons]
  suffices H : ∀ (l : List Point) (acc : Option (Point × ℤ)), acc.isSome →
      (l.foldl
        (fun acc q =>
          let dist := (q.x - current.x) ^ 2 + (q.y - current.y) ^ 2
          match acc with
          | none => some (q, dist)
          | some (_, m) => if dist < m then some (q, dist) else acc)
        acc).isSome by
    exact H t _ rfl
  intro l
  induction l with
  | nil => intro acc h; exact h
  | cons a t ih =>
    intro acc hacc
    refine ih _ ?_
    rcases acc with _ | ⟨p, m⟩
    · exact absurd hacc (by simp)
    · dsimp only; split <;> rfl

lemma orderGo_eq_sq :
    ∀ (fuel : ℕ) (remaining : List Point) (current : Point) (ordered : List Point),
      orderGo fuel remaining current ordered = orderGoSq fuel remaining current ordered := by
  intro fuel
  induction fuel with
  | zero => intro remaining current ordered; rfl
  | succ fuel ih =>
    intro remaining current ordered
    rw [orderGo, orderGoSq]
    by_cases hemp : remaining.isEmpty
    · rw [if_pos hemp, if_pos hemp]
    rw [if_neg hemp, if_neg hemp]
    cases hm : manhattanNearest current remaining with
    | some qd => exact ih ..
    | none =>
      rw [euclideanNearest_eq_sq]
      cases he : euclideanNearestSq current remaining with
      | some qd => exact ih ..
      | none => rfl

lemma orderGo_length :
    ∀ (fuel : ℕ) (remaining : List Point) (current : Point) (ordered : List Point),
      remaining.length = fuel →
      (orderGo fuel remaining current ordered).length = ordered.length + fuel := by
  intro fuel
  induction fuel with
  | zero => intro remaining current ordered _; rfl
  | succ fuel ih =>
    intro remaining current ordered hlen
    have hne : remaining ≠ [] := by
      intro hc; rw [hc] at hlen; exact Nat.succ_ne_zero fuel hlen.symm
    rw [orderGo, if_neg (by simpa [List.isEmpty_iff] using hne)]
    cases hm : manhattanNearest current remaining with
    | some qd =>
      obtain ⟨q, d⟩ := qd
      have hq : q ∈ remaining := manhattanNearest_mem hm
      have : (remaining.erase q).length = fuel := by
        rw [List.length_erase_of_mem hq, hlen]; rfl
      rw [ih _ _ _ this, List.length_append]
      simp [Nat.add_assoc, Nat.add_comm 1 fuel]
    | none =>
      cases he : euclideanNearest current remaining with
      | some qd =>
        obtain ⟨q, d⟩ := qd
        have hq : q ∈ remaining := by
          rw [euclideanNearest_eq_sq] at he
          cases he' : euclideanNearestSq current remaining with
          | none => rw [he'] at he; exact absurd he (by simp)
          | some qd' =>
            obtain ⟨q1, d1⟩ := qd'
            rw [he'] at he
            have : q1 = q := congrArg Prod.fst (Option.some.inj he)
            exact this ▸ euclideanNearestSq_mem he'
        have : (remaining.erase q).length = fuel := by
          rw [List.length_erase_of_mem hq, hlen]; rfl
        rw [ih _ _ _ this, List.length_append]
        simp [Nat.add_assoc, Nat.add_comm 1 fuel]
      | none =>
        exfalso
        have := @euclideanNearestSq_isSome current _ hne
        rw [euclideanNearest_eq_sq] at he
        cases he' : euclideanNearestSq current remaining with
        | none => rw [he'] at this; exact absurd this (by simp)
        | some qd' => rw [he'] at he; exact absurd he (by simp)

lemma orderGo_perm :
    ∀ (fuel : ℕ) (remaining : List Point) (current : Point) (ordered : List Point),
      remaining.length = fuel →
      (orderGo fuel remaining current ordered).Perm (ordered ++ remaining) := by
  intro fuel
  induction fuel with
  | zero =>
    intro remaining current ordered hlen
    rw [List.length_eq_zero] at hlen
    subst hlen
    simp [orderGo]
  | succ fuel ih =>
    intro remaining current ordered hlen
    have hne : remaining ≠ [] := by
      intro hc; rw [hc] at hlen; exact Nat.succ_ne_zero fuel hlen.symm
    rw [orderGo, if_neg (by simpa [List.isEmpty_iff] using hne)]
    have step : ∀ q : Point, q ∈ remaining →
        (orderGo fuel (remaining.erase q) q (ordered ++ [q])).Perm (ordered ++ remaining) := by
      intro q hq
      have hlen' : (remaining.erase q).length = fuel := by
        rw [List.length_erase_of_mem hq, hlen]; rfl
      refine (ih _ _ _ hlen').trans ?_
      rw [List.append_assoc]
      exact List.Perm.append_left ordered
        (List.Perm.symm (List.perm_cons_erase hq))
    cases hm : manhattanNearest current remaining with
    | some qd =>
      obtain ⟨q, d⟩ := qd
      exact step q (manhattanNearest_mem hm)
    | none =>
      cases he : euclideanNearest current remaining with
      | some qd =>
        obtain ⟨q, d⟩ := qd
        refine step q ?_
        rw [euclideanNearest_eq_sq] at he
        cases he' : euclideanNearestSq current remaining with
        | none => rw [he'] at he; exact absurd he (by simp)
        | some qd' =>
          obtain ⟨q1, d1⟩ := qd'
          rw [he'] at he
          have : q1 = q := congrArg Prod.fst (Option.some.inj he)
          exact this ▸ euclideanNearestSq_mem he'
      | none =>
        exfalso
        have := @euclideanNearestSq_isSome current _ hne
        rw [euclideanNearest_eq_sq] at he
        cases he' : euclideanNearestSq current remaining with
        | none => rw [he'] at this; exact absurd this (by simp)
        | some qd' => rw [he'] at he; exact absurd he (by simp)

lemma orderBoundaryPoints_eq_sq (boundaryPoints allPoints : List Point) :
    orderBoundaryPoints boundaryPoints allPoints =
      orderBoundaryPointsSq boundaryPoints allPoints := by
  unfold orderBoundaryPoints orderBoundaryPointsSq
  cases boundaryPoints with
  | nil => rfl
  | cons b0 rest => simp only [orderGo_eq_sq]

lemma orderBoundaryPoints_length {boundaryPoints : List Point} (allPoints : List Point)
    (h : boundaryPoints ≠ []) :
    (orderBoundaryPoints boundaryPoints allPoints).length = boundaryPoints.length := by
  unfold orderBoundaryPoints
  cases boundaryPoints with
  | nil => exact absurd rfl h
  | cons b0 rest =>
    have hlen := orderGo_length rest.length rest b0 [b0] rfl
    show (if 0 < (orderGo rest.length rest b0 [b0]).length
        then orderGo rest.length rest b0 [b0] else allPoints).length = (b0 :: rest).length
    rw [if_pos (by rw [hlen]; simp)]
    rw [hlen]
    simp [Nat.add_comm]

lemma orderBoundaryPoints_perm {boundaryPoints : List Point} (allPoints : List Point)
    (h : boundaryPoints ≠ []) :
    (orderBoundaryPoints boundaryPoints allPoints).Perm boundaryPoints := by
  unfold orderBoundaryPoints
  cases boundaryPoints with
  | nil => exact absurd rfl h
  | cons b0 rest =>
    have hlen := orderGo_length rest.length rest b0 [b0] rfl
    show (if 0 < (orderGo rest.length rest b0 [b0]).length
        then orderGo rest.length rest b0 [b0] else allPoints).Perm (b0 :: rest)
    rw [if_pos (by rw [hlen]; simp)]
    simpa using orderGo_perm rest.length rest b0 [b0] rfl

/-! ## Lemmas about the contour scan and the pipeline accumulator -/

lemma floodFill_contour_length (binary visited : List Bool) (startX startY : ℤ)
    (width height : ℕ) :
    (floodFill binary visited startX startY width height).2.length =
      let r := floodFillLoop binary width height (9 * width * height + 1) visited
        [⟨startX, startY⟩] [] []
      if 0 < r.2.2.length then r.2.2.length else r.2.1.length := by
  unfold floodFill
  dsimp only
  split
  · next h => exact orderBoundaryPoints_length _ (by
      intro hc
      rw [hc] at h
      exact Nat.lt_irrefl 0 h)
  · rfl

lemma findContoursGo_emitted (binary : List Bool) (width height : ℕ) :
    ∀ (positions : List (ℕ × ℕ)) (visited : List Bool) (acc : List (List Point)),
      (∀ c ∈ acc, 10 < c.length) →
      ∀ c ∈ findContoursGo binary width height positions visited acc, 10 < c.length := by
  intro positions
  induction positions with
  | nil => intro visited acc hacc c hc; exact hacc c hc
  | cons p rest ih =>
    intro visited acc hacc c hc
    obtain ⟨x, y⟩ := p
    rw [findContoursGo] at hc
    revert hc
    split
    · dsimp only
      split
      · next hlen =>
        intro hc
        refine ih _ _ ?_ c hc
        intro c' hc'
        rcases List.mem_append.mp hc' with h' | h'
        · exact hacc c' h'
        · rw [List.mem_singleton.mp h']; exact hlen
      · intro hc; exact ih _ _ hacc c hc
    · intro hc; exact ih _ _ hacc c hc

lemma findContours_length {binary : List Bool} {width height : ℕ} {c : List Point}
    (h : c ∈ findContours binary width height) : 10 < c.length :=
  findContoursGo_emitted binary width height _ _ [] (by intro c' hc'; cases hc') c h

lemma mem_accumulateShapes {contours : List (List Point)} {s : DetectedShape}
    (h : s ∈ accumulateShapes contours) :
    ∃ contour ∈ contours, 3 ≤ contour.length ∧
      3 ≤ (simplifyContour contour 2).length ∧
      classifyShape (simplifyContour contour 2) contour = some s := by
  unfold accumulateShapes at h
  suffices H : ∀ (l : List (List Point)) (acc : List DetectedShape),
      s ∈ l.foldl
        (fun shapes contour =>
          if contour.length < 3 then shapes
          else
            let simplified := simplifyContour contour 2
            if simplified.length < 3 then shapes
            else
              match classifyShape simplified contour with
              | some shapeInfo => shapes ++ [shapeInfo]
              | none => shapes)
        acc →
      s ∈ acc ∨ ∃ contour ∈ l, 3 ≤ contour.length ∧
        3 ≤ (simplifyContour contour 2).length ∧
        classifyShape (simplifyContour contour 2) contour = some s by
    rcases H contours [] h with h' | h'
    · cases h'
    · exact h'
  intro l
  induction l with
  | nil => intro acc h; exact Or.inl h
  | cons contour rest ih =>
    intro acc h
    rw [List.foldl_cons] at h
    rcases ih _ h with h' | h'
    · revert h'
      split
      · intro h'; exact Or.inl h'
      · next hlen3 =>
        dsimp only
        split
        · intro h'; exact Or.inl h'
        · next hslen3 =>
          split
          · next s' hcl =>
            intro h'
            rcases List.mem_append.mp h' with h'' | h''
            · exact Or.inl h''
            · right
              refine ⟨contour, List.mem_cons_self .., ?_, ?_, ?_⟩
              · exact Nat.le_of_not_lt hlen3
              · exact Nat.le_of_not_lt hslen3
              · rw [hcl, List.mem_singleton.mp h'']
          · intro h'; exact Or.inl h'
    · right
      obtain ⟨c', hc', hrest⟩ := h'
      exact ⟨c', List.mem_cons_of_mem _ hc', hrest⟩

lemma mem_detectShapes {data : List ℕ} {width height : ℕ} {startTime endTime : ℝ}
    {s : DetectedShape}
    (h : s ∈ (detectShapes data width height startTime endTime).shapes) :
    ∃ contour ∈ findContours (createBinaryImage data width height) width height,
      3 ≤ contour.length ∧ 3 ≤ (simplifyContour contour 2).length ∧
      classifyShape (simplifyContour contour 2) contour = some s := by
  unfold detectShapes at h
  exact mem_accumulateShapes h

/-! ## Lemmas about the classifier -/

lemma calculateArea_nonneg (points : List Point) : 0 ≤ calculateArea points := by
  unfold calculateArea
  positivity

lemma confidence_clamp_bounds {c : ℝ} (hc : 0 ≤ c) : 0 ≤ min 1 c ∧ min 1 c ≤ 1 :=
  ⟨le_min zero_le_one hc, min_le_left _ _⟩

lemma classifyShape_fields {simplified contour : List Point} {s : DetectedShape}
    (h : classifyShape simplified contour = some s) :
    s.boundingBox = ⟨(calculateBounds contour).minX, (calculateBounds contour).minY,
        (calculateBounds contour).width, (calculateBounds contour).height⟩ ∧
    s.center = (((calculateBounds contour).minX : ℚ) + ((calculateBounds contour).width : ℚ) / 2,
        ((calculateBounds contour).minY : ℚ) + ((calculateBounds contour).height : ℚ) / 2) ∧
    s.area = calculateArea contour := by
  simp only [classifyShape] at h
  split_ifs at h <;>
    (injection h with h'; subst h'; exact ⟨rfl, rfl, rfl⟩)

lemma classifyShape_confidence {simplified contour : List Point} {s : DetectedShape}
    (h : classifyShape simplified contour = some s) :
    0 ≤ s.confidence ∧ s.confidence ≤ 1 := by
  simp only [classifyShape] at h
  split_ifs at h <;>
    (injection h with h'
     subst h'
     refine confidence_clamp_bounds ?_
     first
     | (rename_i hcond
        refine le_min (by norm_num) ?_
        have h1 := hcond.1
        linarith)
     | norm_num)

lemma isTriangle_length {points : List Point} (h : isTriangle points) :
    points.length = 3 := h.1

lemma classifyShape_triangle {simplified contour : List Point} {s : DetectedShape}
    (h : classifyShape simplified contour = some s)
    (ht : s.type = ShapeType.triangle) :
    simplified.length = 3 ∧ s.confidence = 0.95 := by
  simp only [classifyShape] at h
  split_ifs at h <;>
    (injection h with h'
     subst h'
     first
     | (exact ShapeType.noConfusion ht)
     | (rename_i hcond hn3
        refine ⟨hn3, ?_⟩
        show min 1 (0.85 + 0.1) = (0.95 : ℝ)
        rw [min_eq_right (by norm_num : (0.85 + 0.1 : ℝ) ≤ 1)]
        norm_num)
     | (rename_i hcond hn3
        rcases hcond with h' | h'
        · exact absurd h' hn3
        · exact absurd (isTriangle_length h'.2.2) hn3))

lemma classifyShape_isSome {simplified contour : List Point}
    (h3 : 3 ≤ simplified.length) (h8 : simplified.length ≤ 8) :
    ∃ s, classifyShape simplified contour = some s ∧ s.area = calculateArea contour := by
  simp only [classifyShape]
  split_ifs <;> first
  | exact ⟨_, rfl, rfl⟩
  | (exfalso
     rename_i hb2 hb3 hb4 hb5 hb6
     push_neg at hb2 hb3 hb4 hb6
     omega)

lemma foldl_minx_le_foldl_maxx :
    ∀ (l : List Point) (a b : ℤ), a ≤ b →
      l.foldl (fun m q => min m q.x) a ≤ l.foldl (fun m q => max m q.x) b := by
  intro l
  induction l with
  | nil => intro a b hab; exact hab
  | cons q t ih =>
    intro a b hab
    exact ih _ _ (le_trans (min_le_left _ _) (le_trans hab (le_max_left _ _)))

lemma foldl_miny_le_foldl_maxy :
    ∀ (l : List Point) (a b : ℤ), a ≤ b →
      l.foldl (fun m q => min m q.y) a ≤ l.foldl (fun m q => max m q.y) b := by
  intro l
  induction l with
  | nil => intro a b hab; exact hab
  | cons q t ih =>
    intro a b hab
    exact ih _ _ (le_trans (min_le_left _ _) (le_trans hab (le_max_left _ _)))

lemma calculateBounds_dims {contour : List Point} (h : contour ≠ []) :
    1 ≤ (calculateBounds contour).width ∧ 1 ≤ (calculateBounds contour).height := by
  cases contour with
  | nil => exact absurd rfl h
  | cons p ps =>
    have hx := foldl_minx_le_foldl_maxx ps p.x p.x le_rfl
    have hy := foldl_miny_le_foldl_maxy ps p.y p.y le_rfl
    dsimp only [calculateBounds]
    omega

/-! ## Lemmas about the simplifier -/

lemma pointToLineDistancePair_den_pos (p a b : Point) :
    0 < (pointToLineDistancePair p a b).2 := by
  unfold pointToLineDistancePair
  dsimp only
  split_ifs with h1 h2 h3
  · exact one_pos
  · exact one_pos
  · exact one_pos
  · rcases lt_or_eq_of_le (add_nonneg (mul_self_nonneg (b.x - a.x))
      (mul_self_nonneg (b.y - a.y))) with h | h
    · exact h
    · exact absurd h.symm h1

lemma pointToLineDistancePair_num_nonneg (p a b : Point) :
    0 ≤ (pointToLineDistancePair p a b).1 := by
  unfold pointToLineDistancePair
  dsimp only
  split_ifs <;> positivity

/-- Algebraic core of the interior branch of `pointToLineDistance`:
the squared distance to the projected point is `(A·D − B·C)² / lenSq`. -/
lemma proj_dist_sq (A B C D : ℝ) (hlen : C * C + D * D ≠ 0) :
    (A - (A * C + B * D) / (C * C + D * D) * C) * (A - (A * C + B * D) / (C * C + D * D) * C) +
      (B - (A * C + B * D) / (C * C + D * D) * D) * (B - (A * C + B * D) / (C * C + D * D) * D) =
      (A * D - B * C) ^ 2 / (C * C + D * D) := by
  field_simp
  ring

set_option maxHeartbeats 800000 in
lemma pointToLineDistance_eq_pair (p a b : Point) :
    pointToLineDistance p a b =
      Real.sqrt (((pointToLineDistancePair p a b).1 : ℝ) /
        ((pointToLineDistancePair p a b).2 : ℝ)) := by
  simp only [pointToLineDistance, pointToLineDistancePair]
  have hcastlen : ((((b.x - a.x) * (b.x - a.x) + (b.y - a.y) * (b.y - a.y) : ℤ)) : ℝ) =
      ((b.x - a.x : ℤ) : ℝ) * ((b.x - a.x : ℤ) : ℝ) +
        ((b.y - a.y : ℤ) : ℝ) * ((b.y - a.y : ℤ) : ℝ) := by push_cast; ring
  have hcastdot : ((((p.x - a.x) * (b.x - a.x) + (p.y - a.y) * (b.y - a.y) : ℤ)) : ℝ) =
      ((p.x - a.x : ℤ) : ℝ) * ((b.x - a.x : ℤ) : ℝ) +
        ((p.y - a.y : ℤ) : ℝ) * ((b.y - a.y : ℤ) : ℝ) := by push_cast; ring
  by_cases hlen : (b.x - a.x) * (b.x - a.x) + (b.y - a.y) * (b.y - a.y) = 0
  · have hlenR : ((b.x - a.x : ℤ) : ℝ) * ((b.x - a.x : ℤ) : ℝ) +
        ((b.y - a.y : ℤ) : ℝ) * ((b.y - a.y : ℤ) : ℝ) = 0 := by
      rw [← hcastlen, hlen]; norm_num
    have hparam : (if ((b.x - a.x : ℤ) : ℝ) * ((b.x - a.x : ℤ) : ℝ) +
          ((b.y - a.y : ℤ) : ℝ) * ((b.y - a.y : ℤ) : ℝ) ≠ 0 then
          (((p.x - a.x : ℤ) : ℝ) * ((b.x - a.x : ℤ) : ℝ) +
            ((p.y - a.y : ℤ) : ℝ) * ((b.y - a.y : ℤ) : ℝ)) /
          (((b.x - a.x : ℤ) : ℝ) * ((b.x - a.x : ℤ) : ℝ) +
            ((b.y - a.y : ℤ) : ℝ) * ((b.y - a.y : ℤ) : ℝ))
        else -1) = -1 := if_neg (by simpa using hlenR)
    rw [if_pos hlen, hparam, if_pos (by norm_num : (-1 : ℝ) < 0)]
    congr 1
    push_cast
    ring
  · have hlenposZ : 0 < (b.x - a.x) * (b.x - a.x) + (b.y - a.y) * (b.y - a.y) := by
      rcases lt_or_eq_of_le (add_nonneg (mul_self_nonneg (b.x - a.x))
        (mul_self_nonneg (b.y - a.y))) with h | h
      · exact h
      · exact absurd h.symm hlen
    have hlenposR : (0 : ℝ) < ((b.x - a.x : ℤ) : ℝ) * ((b.x - a.x : ℤ) : ℝ) +
        ((b.y - a.y : ℤ) : ℝ) * ((b.y - a.y : ℤ) : ℝ) := by
      rw [← hcastlen]; exact_mod_cast hlenposZ
    have hparam : (if ((b.x - a.x : ℤ) : ℝ) * ((b.x - a.x : ℤ) : ℝ) +
          ((b.y - a.y : ℤ) : ℝ) * ((b.y - a.y : ℤ) : ℝ) ≠ 0 then
          (((p.x - a.x : ℤ) : ℝ) * ((b.x - a.x : ℤ) : ℝ) +
            ((p.y - a.y : ℤ) : ℝ) * ((b.y - a.y : ℤ) : ℝ)) /
          (((b.x - a.x : ℤ) : ℝ) * ((b.x - a.x : ℤ) : ℝ) +
            ((b.y - a.y : ℤ) : ℝ) * ((b.y - a.y : ℤ) : ℝ))
        else -1) =
        (((p.x - a.x : ℤ) : ℝ) * ((b.x - a.x : ℤ) : ℝ) +
            ((p.y - a.y : ℤ) : ℝ) * ((b.y - a.y : ℤ) : ℝ)) /
          (((b.x - a.x : ℤ) : ℝ) * ((b.x - a.x : ℤ) : ℝ) +
            ((b.y - a.y : ℤ) : ℝ) * ((b.y - a.y : ℤ) : ℝ)) := if_pos (ne_of_gt hlenposR)
    rw [if_neg hlen, hparam]
    by_cases hdot : (p.x - a.x) * (b.x - a.x) + (p.y - a.y) * (b.y - a.y) < 0
    · have hdotR : ((p.x - a.x : ℤ) : ℝ) * ((b.x - a.x : ℤ) : ℝ) +
          ((p.y - a.y : ℤ) : ℝ) * ((b.y - a.y : ℤ) : ℝ) < 0 := by
        rw [← hcastdot]; exact_mod_cast hdot
      rw [if_pos hdot, if_pos (div_neg_of_neg_of_pos hdotR hlenposR)]
      congr 1
      push_cast
      ring
    · have hdotR : (0 : ℝ) ≤ ((p.x - a.x : ℤ) : ℝ) * ((b.x - a.x : ℤ) : ℝ) +
          ((p.y - a.y : ℤ) : ℝ) * ((b.y - a.y : ℤ) : ℝ) := by
        rw [← hcastdot]; exact_mod_cast Int.not_lt.mp hdot
      rw [if_neg hdot,
        if_neg (not_lt.mpr (div_nonneg hdotR (le_of_lt hlenposR)))]
      by_cases hgt : (b.x - a.x) * (b.x - a.x) + (b.y - a.y) * (b.y - a.y) <
          (p.x - a.x) * (b.x - a.x) + (p.y - a.y) * (b.y - a.y)
      · have hgtR : ((b.x - a.x : ℤ) : ℝ) * ((b.x - a.x : ℤ) : ℝ) +
            ((b.y - a.y : ℤ) : ℝ) * ((b.y - a.y : ℤ) : ℝ) <
            ((p.x - a.x : ℤ) : ℝ) * ((b.x - a.x : ℤ) : ℝ) +
              ((p.y - a.y : ℤ) : ℝ) * ((b.y - a.y : ℤ) : ℝ) := by
          rw [← hcastlen, ← hcastdot]; exact_mod_cast hgt
        rw [if_pos hgt, if_pos (by rw [lt_div_iff₀ hlenposR, one_mul]; exact hgtR)]
        congr 1
        push_cast
        ring
      · have hgtR : ¬ (((b.x - a.x : ℤ) : ℝ) * ((b.x - a.x : ℤ) : ℝ) +
            ((b.y - a.y : ℤ) : ℝ) * ((b.y - a.y : ℤ) : ℝ) <
            ((p.x - a.x : ℤ) : ℝ) * ((b.x - a.x : ℤ) : ℝ) +
              ((p.y - a.y : ℤ) : ℝ) * ((b.y - a.y : ℤ) : ℝ)) := by
          rw [← hcastlen, ← hcastdot]; exact_mod_cast hgt
        rw [if_neg hgt, if_neg (by rw [lt_div_iff₀ hlenposR, one_mul]; exact hgtR)]
        congr 1
        rw [hcastlen]
        rw [show (((((p.x - a.x) * (b.y - a.y) - (p.y - a.y) * (b.x - a.x)) ^ 2 : ℤ)) : ℝ) =
          (((p.x - a.x : ℤ) : ℝ) * ((b.y - a.y : ℤ) : ℝ) -
            ((p.y - a.y : ℤ) : ℝ) * ((b.x - a.x : ℤ) : ℝ)) ^ 2 from by push_cast; ring]
        rw [show ((p.x : ℤ) : ℝ) - (((a.x : ℤ) : ℝ) +
            (((p.x - a.x : ℤ) : ℝ) * ((b.x - a.x : ℤ) : ℝ) +
              ((p.y - a.y : ℤ) : ℝ) * ((b.y - a.y : ℤ) : ℝ)) /
            (((b.x - a.x : ℤ) : ℝ) * ((b.x - a.x : ℤ) : ℝ) +
              ((b.y - a.y : ℤ) : ℝ) * ((b.y - a.y : ℤ) : ℝ)) * ((b.x - a.x : ℤ) : ℝ)) =
          ((p.x - a.x : ℤ) : ℝ) -
            (((p.x - a.x : ℤ) : ℝ) * ((b.x - a.x : ℤ) : ℝ) +
              ((p.y - a.y : ℤ) : ℝ) * ((b.y - a.y : ℤ) : ℝ)) /
            (((b.x - a.x : ℤ) : ℝ) * ((b.x - a.x : ℤ) : ℝ) +
              ((b.y - a.y : ℤ) : ℝ) * ((b.y - a.y : ℤ) : ℝ)) * ((b.x - a.x : ℤ) : ℝ)
          from by push_cast; ring]
        rw [show ((p.y : ℤ) : ℝ) - (((a.y : ℤ) : ℝ) +
            (((p.x - a.x : ℤ) : ℝ) * ((b.x - a.x : ℤ) : ℝ) +
              ((p.y - a.y : ℤ) : ℝ) * ((b.y - a.y : ℤ) : ℝ)) /
            (((b.x - a.x : ℤ) : ℝ) * ((b.x - a.x : ℤ) : ℝ) +
              ((b.y - a.y : ℤ) : ℝ) * ((b.y - a.y : ℤ) : ℝ)) * ((b.y - a.y : ℤ) : ℝ)) =
          ((p.y - a.y : ℤ) : ℝ) -
            (((p.x - a.x : ℤ) : ℝ) * ((b.x - a.x : ℤ) : ℝ) +
              ((p.y - a.y : ℤ) : ℝ) * ((b.y - a.y : ℤ) : ℝ)) /
            (((b.x - a.x : ℤ) : ℝ) * ((b.x - a.x : ℤ) : ℝ) +
              ((b.y - a.y : ℤ) : ℝ) * ((b.y - a.y : ℤ) : ℝ)) * ((b.y - a.y : ℤ) : ℝ)
          from by push_cast; ring]
        exact proj_dist_sq _ _ _ _ (ne_of_gt hlenposR)

lemma farthest_eq_pair (l : List Point) :
    0 ≤ (farthestPair l).1.1 ∧ 0 < (farthestPair l).1.2 ∧
      farthest l = (Real.sqrt (((farthestPair l).1.1 : ℝ) / ((farthestPair l).1.2 : ℝ)),
        (farthestPair l).2) := by
  unfold farthest farthestPair
  generalize List.range' 1 (l.length - 2) = idxs
  suffices H : ∀ (idxs : List ℕ) (accP : (ℤ × ℤ) × ℕ), 0 ≤ accP.1.1 → 0 < accP.1.2 →
      0 ≤ (idxs.foldl
        (fun acc i =>
          let dist := pointToLineDistancePair (l.getD i default) (l.getD 0 default)
            (l.getD (l.length - 1) default)
          if acc.1.1 * dist.2 < dist.1 * acc.1.2 then (dist, i) else acc)
        accP).1.1 ∧
      0 < (idxs.foldl
        (fun acc i =>
          let dist := pointToLineDistancePair (l.getD i default) (l.getD 0 default)
            (l.getD (l.length - 1) default)
          if acc.1.1 * dist.2 < dist.1 * acc.1.2 then (dist, i) else acc)
        accP).1.2 ∧
      idxs.foldl
        (fun acc i =>
          let dist := pointToLineDistance (l.getD i default) (l.getD 0 default)
            (l.getD (l.length - 1) default)
          if acc.1 < dist then (dist, i) else acc)
        (Real.sqrt ((accP.1.1 : ℝ) / (accP.1.2 : ℝ)), accP.2) =
      (Real.sqrt ((((idxs.foldl
          (fun acc i =>
            let dist := pointToLineDistancePair (l.getD i default) (l.getD 0 default)
              (l.getD (l.length - 1) default)
            if acc.1.1 * dist.2 < dist.1 * acc.1.2 then (dist, i) else acc)
          accP).1.1 : ℤ) : ℝ) / (((idxs.foldl
          (fun acc i =>
            let dist := pointToLineDistancePair (l.getD i default) (l.getD 0 default)
              (l.getD (l.length - 1) default)
            if acc.1.1 * dist.2 < dist.1 * acc.1.2 then (dist, i) else acc)
          accP).1.2 : ℤ) : ℝ)),
        (idxs.foldl
          (fun acc i =>
            let dist := pointToLineDistancePair (l.getD i default) (l.getD 0 default)
              (l.getD (l.length - 1) default)
            if acc.1.1 * dist.2 < dist.1 * acc.1.2 then (dist, i) else acc)
          accP).2) by
    have h := H idxs ((0, 1), 0) le_rfl one_pos
    simpa [Real.sqrt_zero] using h
  intro idxs
  induction idxs with
  | nil => intro accP h1 h2; exact ⟨h1, h2, rfl⟩
  | cons i rest ih =>
    intro accP h1 h2
    rw [List.foldl_cons, List.foldl_cons]
    dsimp only
    set dP := pointToLineDistancePair (l.getD i default) (l.getD 0 default)
      (l.getD (l.length - 1) default) with hdP
    have hnum : 0 ≤ dP.1 := pointToLineDistancePair_num_nonneg ..
    have hden : 0 < dP.2 := pointToLineDistancePair_den_pos ..
    rw [pointToLineDistance_eq_pair]
    by_cases hc : accP.1.1 * dP.2 < dP.1 * accP.1.2
    · have hcR : Real.sqrt ((accP.1.1 : ℝ) / (accP.1.2 : ℝ)) <
          Real.sqrt ((dP.1 : ℝ) / (dP.2 : ℝ)) := by
        apply Real.sqrt_lt_sqrt (by positivity)
        rw [div_lt_div_iff (by exact_mod_cast h2) (by exact_mod_cast hden)]
        exact_mod_cast hc
      rw [if_pos hc, if_pos hcR]
      exact ih (dP, i) hnum hden
    · have hcR : ¬ (Real.sqrt ((accP.1.1 : ℝ) / (accP.1.2 : ℝ)) <
          Real.sqrt ((dP.1 : ℝ) / (dP.2 : ℝ))) := by
        intro hlt
        apply hc
        have := (Real.sqrt_lt_sqrt_iff (by positivity)).mp hlt
        rw [div_lt_div_iff (by exact_mod_cast h2) (by exact_mod_cast hden)] at this
        exact_mod_cast this
      rw [if_neg hc, if_neg hcR]
      exact ih accP h1 h2

lemma farthestPair_pos_index {l : List Point} (h : 0 < (farthestPair l).1.1) :
    1 ≤ (farthestPair l).2 ∧ (farthestPair l).2 ≤ l.length - 2 := by
  unfold farthestPair at *
  suffices H : ∀ (idxs : List ℕ) (accP : (ℤ × ℤ) × ℕ),
      (∀ i ∈ idxs, 1 ≤ i ∧ i ≤ l.length - 2) →
      (accP.1.1 = 0 ∧ accP.2 = 0) ∨ (1 ≤ accP.2 ∧ accP.2 ≤ l.length - 2) →
      ((idxs.foldl
        (fun acc i =>
          let dist := pointToLineDistancePair (l.getD i default) (l.getD 0 default)
            (l.getD (l.length - 1) default)
          if acc.1.1 * dist.2 < dist.1 * acc.1.2 then (dist, i) else acc)
        accP).1.1 = 0 ∧ (idxs.foldl
        (fun acc i =>
          let dist := pointToLineDistancePair (l.getD i default) (l.getD 0 default)
            (l.getD (l.length - 1) default)
          if acc.1.1 * dist.2 < dist.1 * acc.1.2 then (dist, i) else acc)
        accP).2 = 0) ∨
      (1 ≤ (idxs.foldl
        (fun acc i =>
          let dist := pointToLineDistancePair (l.getD i default) (l.getD 0 default)
            (l.getD (l.length - 1) default)
          if acc.1.1 * dist.2 < dist.1 * acc.1.2 then (dist, i) else acc)
        accP).2 ∧ (idxs.foldl
        (fun acc i =>
          let dist := pointToLineDistancePair (l.getD i default) (l.getD 0 default)
            (l.getD (l.length - 1) default)
          if acc.1.1 * dist.2 < dist.1 * acc.1.2 then (dist, i) else acc)
        accP).2 ≤ l.length - 2) by
    rcases H (List.range' 1 (l.length - 2)) ((0, 1), 0)
      (by
        intro i hi
        rw [List.mem_range'] at hi
        omega)
      (Or.inl ⟨rfl, rfl⟩) with h' | h'
    · rw [h'.1] at h; exact absurd h (lt_irrefl 0)
    · exact h'
  intro idxs
  induction idxs with
  | nil => intro accP _ hacc; exact hacc
  | cons i rest ih =>
    intro accP hmem hacc
    rw [List.foldl_cons]
    dsimp only
    split
    · exact ih _ (fun j hj => hmem j (List.mem_cons_of_mem _ hj))
        (Or.inr (hmem i (List.mem_cons_self ..)))
    · exact ih _ (fun j hj => hmem j (List.mem_cons_of_mem _ hj)) hacc

lemma simplifyGo_eq_pair : ∀ (fuel : ℕ) (l : List Point),
    simplifyGo fuel l 2 = simplifyGoPair fuel l := by
  intro fuel
  induction fuel with
  | zero => intro l; rfl
  | succ fuel ih =>
    intro l
    rw [simplifyGo, simplifyGoPair]
    by_cases hlen : l.length ≤ 2
    · rw [if_pos hlen, if_pos hlen]
    rw [if_neg hlen, if_neg hlen]
    obtain ⟨hnum, hden, heq⟩ := farthest_eq_pair l
    rw [heq]
    dsimp only
    by_cases hc : 4 * (farthestPair l).1.2 < (farthestPair l).1.1
    · have hcR : (2 : ℝ) < Real.sqrt (((farthestPair l).1.1 : ℝ) /
          ((farthestPair l).1.2 : ℝ)) := by
        rw [Real.lt_sqrt (by norm_num)]
        rw [lt_div_iff (by exact_mod_cast hden)]
        norm_num
        exact_mod_cast hc
      rw [if_pos hcR, if_pos hc, ih, ih]
    · have hcR : ¬ ((2 : ℝ) < Real.sqrt (((farthestPair l).1.1 : ℝ) /
          ((farthestPair l).1.2 : ℝ))) := by
        intro hlt
        apply hc
        rw [Real.lt_sqrt (by norm_num)] at hlt
        rw [lt_div_iff (by exact_mod_cast hden)] at hlt
        have : (4 : ℝ) * ((farthestPair l).1.2 : ℝ) < ((farthestPair l).1.1 : ℝ) := by
          norm_num at hlt
          exact hlt
        exact_mod_cast this
      rw [if_neg hcR, if_neg hc]

lemma head?_getD {l : List Point} (h : l ≠ []) : l.head? = some (l.getD 0 default) := by
  cases l with
  | nil => exact absurd rfl h
  | cons a t => rfl

lemma getLast?_getD {l : List Point} (h : l ≠ []) :
    l.getLast? = some (l.getD (l.length - 1) default) := by
  have hn : l.length - 1 < l.length := by
    cases l with
    | nil => exact absurd rfl h
    | cons a t => simp
  rw [List.getLast?_eq_getElem? l, List.getElem?_eq_getElem hn, List.getD_eq_getElem _ _ hn]

lemma head?_take {l : List Point} {n : ℕ} (h : 0 < n) : (l.take n).head? = l.head? := by
  cases l with
  | nil => simp
  | cons a t =>
    cases n with
    | zero => exact absurd h (lt_irrefl 0)
    | succ n => rfl

lemma head?_dropLast {l : List Point} (h : 2 ≤ l.length) : l.dropLast.head? = l.head? := by
  cases l with
  | nil => simp at h
  | cons a t =>
    cases t with
    | nil => simp at h
    | cons b t' => rfl

lemma getLast?_drop {l : List Point} {m : ℕ} (h : m < l.length) :
    (l.drop m).getLast? = l.getLast? := by
  rw [List.getLast?_eq_getElem? (l.drop m), List.getLast?_eq_getElem? l,
    List.getElem?_drop, List.length_drop]
  congr 1
  omega

lemma simplifyGo_spec (epsilon : ℝ) (hε : 0 ≤ epsilon) :
    ∀ (fuel : ℕ) (l : List Point), l.length ≤ fuel →
      (simplifyGo fuel l epsilon).Sublist l ∧
      min 2 l.length ≤ (simplifyGo fuel l epsilon).length ∧
      (simplifyGo fuel l epsilon).head? = l.head? ∧
      (simplifyGo fuel l epsilon).getLast? = l.getLast? ∧
      (l.length ≤ 2 → simplifyGo fuel l epsilon = l) := by
  intro fuel
  induction fuel with
  | zero =>
    intro l hfuel
    have : l = [] := List.length_eq_zero.mp (Nat.le_zero.mp hfuel)
    subst this
    exact ⟨List.Sublist.refl _, by simp [simplifyGo], rfl, rfl, fun _ => rfl⟩
  | succ fuel ih =>
    intro l hfuel
    rw [simplifyGo]
    by_cases hlen2 : l.length ≤ 2
    · rw [if_pos hlen2]
      exact ⟨List.Sublist.refl _, min_le_of_right_le le_rfl, rfl, rfl, fun _ => rfl⟩
    · rw [if_neg hlen2]
      have hlen3 : 3 ≤ l.length := by omega
      have hne : l ≠ [] := by
        intro hc; rw [hc] at hlen3; simp at hlen3
      dsimp only
      by_cases hc : epsilon < (farthest l).1
      · rw [if_pos hc]
        obtain ⟨hnum, hden, heq⟩ := farthest_eq_pair l
        have hpos : 0 < (farthest l).1 := lt_of_le_of_lt hε hc
        have hposP : 0 < (farthestPair l).1.1 := by
          rw [heq] at hpos
          dsimp only at hpos
          have h1 := Real.sqrt_pos.mp hpos
          have h2 : (0 : ℝ) < ((farthestPair l).1.2 : ℝ) := by exact_mod_cast hden
          have h3 : (0 : ℝ) < ((farthestPair l).1.1 : ℝ) := by
            by_contra hcon
            push_neg at hcon
            have : ((farthestPair l).1.1 : ℝ) / ((farthestPair l).1.2 : ℝ) ≤ 0 :=
              div_nonpos_of_nonpos_of_nonneg hcon (le_of_lt h2)
            linarith
          exact_mod_cast h3
        have hidx := farthestPair_pos_index hposP
        have hmIdx : (farthest l).2 = (farthestPair l).2 := by rw [heq]
        have hm1 : 1 ≤ (farthest l).2 := by rw [hmIdx]; exact hidx.1
        have hm2 : (farthest l).2 ≤ l.length - 2 := by rw [hmIdx]; exact hidx.2
        have hmlt : (farthest l).2 < l.length := by omega
        have htakelen : (l.take ((farthest l).2 + 1)).length = (farthest l).2 + 1 := by
          rw [List.length_take]; omega
        have hdroplen : (l.drop (farthest l).2).length = l.length - (farthest l).2 :=
          List.length_drop ..
        obtain ⟨sl₁, len₁, hd₁, lst₁, -⟩ :=
          ih (l.take ((farthest l).2 + 1)) (by rw [htakelen]; omega)
        obtain ⟨sl₂, len₂, hd₂, lst₂, -⟩ :=
          ih (l.drop (farthest l).2) (by rw [hdroplen]; omega)
        have hleft2 : 2 ≤ (simplifyGo fuel (l.take ((farthest l).2 + 1)) epsilon).length := by
          rw [htakelen] at len₁; omega
        have hright2 : 2 ≤ (simplifyGo fuel (l.drop (farthest l).2) epsilon).length := by
          rw [hdroplen] at len₂; omega
        have hleftne : simplifyGo fuel (l.take ((farthest l).2 + 1)) epsilon ≠ [] := by
          intro hcon; rw [hcon] at hleft2; simp at hleft2
        have hrightne : simplifyGo fuel (l.drop (farthest l).2) epsilon ≠ [] := by
          intro hcon; rw [hcon] at hright2; simp at hright2
        -- the last point of the left simplification is l[maxIndex]
        have hlastleft : (simplifyGo fuel (l.take ((farthest l).2 + 1)) epsilon).getLast? =
            some (l.getD (farthest l).2 default) := by
          rw [lst₁, List.take_succ, List.getElem?_eq_getElem hmlt]
          simp only [Option.toList_some]
          rw [List.getLast?_concat, List.getD_eq_getElem _ _ hmlt]
        -- decompose: left = dropLast left ++ [l[maxIndex]]
        have hleftdecomp : simplifyGo fuel (l.take ((farthest l).2 + 1)) epsilon =
            (simplifyGo fuel (l.take ((farthest l).2 + 1)) epsilon).dropLast ++
              [l.getD (farthest l).2 default] := by
          have := List.dropLast_append_getLast? (l.getD (farthest l).2 default)
            (by rw [hlastleft] ; exact rfl :
              l.getD (farthest l).2 default ∈
                (simplifyGo fuel (l.take ((farthest l).2 + 1)) epsilon).getLast?)
          exact this.symm
        have hsubleft : ((simplifyGo fuel (l.take ((farthest l).2 + 1)) epsilon).dropLast).Sublist
            (l.take (farthest l).2) := by
          apply (List.append_sublist_append_right [l.getD (farthest l).2 default]).mp
          rw [← hleftdecomp]
          have : l.take ((farthest l).2 + 1) =
              l.take (farthest l).2 ++ [l.getD (farthest l).2 default] := by
            rw [List.take_succ, List.getElem?_eq_getElem hmlt]
            simp only [Option.toList_some]
            rw [List.getD_eq_getElem _ _ hmlt]
          rw [← this]
          exact sl₁
        refine ⟨?_, ?_, ?_, ?_, fun hcon => absurd hcon hlen2⟩
        · have hcat := List.Sublist.append hsubleft sl₂
          rw [List.take_append_drop] at hcat
          exact hcat
        · rw [List.length_append, List.length_dropLast]
          have : min 2 l.length ≤ 2 := min_le_left ..
          omega
        · rw [List.head?_append_of_ne_nil _ (by
            intro hcon
            have := congrArg List.length hcon
            rw [List.length_dropLast] at this
            simp at this
            omega)]
          rw [head?_dropLast hleft2, hd₁, head?_take (Nat.succ_pos _)]
        · rw [List.getLast?_append_of_ne_nil _ hrightne, lst₂, getLast?_drop hmlt]
      · rw [if_neg hc]
        refine ⟨?_, ?_, ?_, ?_, fun hcon => absurd hcon hlen2⟩
        · have hlast : l.getD (l.length - 1) default ∈ l.tail := by
            cases l with
            | nil => exact absurd rfl hne
            | cons a t =>
              have htne : t ≠ [] := by
                intro hcon
                rw [hcon] at hlen3
                simp at hlen3
              have : (a :: t).getD ((a :: t).length - 1) default =
                  t.getD (t.length - 1) default := by
                have : (a :: t).length - 1 = t.length := by simp
                rw [this]
                cases t with
                | nil => exact absurd rfl htne
                | cons b t' => simp [List.getD_cons_succ]
              rw [this]
              have hmem : t.getD (t.length - 1) default ∈ t := by
                have hlt : t.length - 1 < t.length := by
                  cases t with
                  | nil => exact absurd rfl htne
                  | cons b t' => simp
                rw [List.getD_eq_getElem _ _ hlt]
                exact List.getElem_mem ..
              exact hmem
          cases l with
          | nil => exact absurd rfl hne
          | cons a t =>
            have : (a :: t).getD 0 default = a := rfl
            rw [this]
            exact List.cons_sublist_cons.mpr (List.singleton_sublist.mpr hlast)
        · simp
        · rw [head?_getD hne]; rfl
        · rw [getLast?_getD hne]; rfl

lemma simplifyContour_spec (l : List Point) :
    (simplifyContour l 2).Sublist l ∧
    min 2 l.length ≤ (simplifyContour l 2).length ∧
    (simplifyContour l 2).head? = l.head? ∧
    (simplifyContour l 2).getLast? = l.getLast? ∧
    (l.length ≤ 2 → simplifyContour l 2 = l) :=
  simplifyGo_spec 2 (by norm_num) l.length l le_rfl

lemma simplifyContour_eq_pair (l : List Point) :
    simplifyContour l 2 = simplifyGoPair l.length l :=
  simplifyGo_eq_pair l.length l

/-! ## Lemmas about the binarizer -/

lemma createBinaryImage_eq_b (data : List ℕ) (width height : ℕ) :
    createBinaryImage data width height = createBinaryImageB data width height := by
  unfold createBinaryImage createBinaryImageB
  congr 1
  funext binary k
  dsimp only
  congr 1
  rw [decide_eq_decide, div_lt_iff (by norm_num : (0 : ℚ) < 3)]
  constructor
  · intro h
    exact_mod_cast h
  · intro h
    exact_mod_cast h

lemma createBinaryImageRun_spec (data : List ℕ) (width height : ℕ) :
    createBinaryImageRun data width height = (createBinaryImage data width height, data) := by
  unfold createBinaryImageRun createBinaryImage
  suffices H : ∀ (l : List ℕ) (acc : List Bool),
      l.foldl
        (fun (st : List Bool × List ℕ) k =>
          let r := st.2.getD (4 * k) 0
          let g := st.2.getD (4 * k + 1) 0
          let b := st.2.getD (4 * k + 2) 0
          let gray : ℚ := ((r + g + b : ℕ) : ℚ) / 3
          (st.1.set k (decide (gray < 128)), st.2))
        (acc, data) =
      (l.foldl
        (fun binary k =>
          let r := data.getD (4 * k) 0
          let g := data.getD (4 * k + 1) 0
          let b := data.getD (4 * k + 2) 0
          let gray : ℚ := ((r + g + b : ℕ) : ℚ) / 3
          binary.set k (decide (gray < 128)))
        acc, data) by
    exact H _ _
  intro l
  induction l with
  | nil => intro acc; rfl
  | cons k t ih =>
    intro acc
    rw [List.foldl_cons, List.foldl_cons]
    exact ih _

/-! ## Lemmas about the vertex angles -/

/-- The first magnitude factor in the cosine denominator of `angleAt`. -/
noncomputable def magPrev (points : List Point) (i : ℕ) : ℝ :=
  let n := points.length
  let prev := points.getD ((i + n - 1) % n) default
  let curr := points.getD i default
  Real.sqrt (((prev.x - curr.x : ℤ) : ℝ) * ((prev.x - curr.x : ℤ) : ℝ) +
    ((prev.y - curr.y : ℤ) : ℝ) * ((prev.y - curr.y : ℤ) : ℝ))

/-- The second magnitude factor in the cosine denominator of `angleAt`. -/
noncomputable def magNext (points : List Point) (i : ℕ) : ℝ :=
  let n := points.length
  let curr := points.getD i default
  let next := points.getD ((i + 1) % n) default
  Real.sqrt (((next.x - curr.x : ℤ) : ℝ) * ((next.x - curr.x : ℤ) : ℝ) +
    ((next.y - curr.y : ℤ) : ℝ) * ((next.y - curr.y : ℤ) : ℝ))

/-- The raw cosine `dot / (mag1 * mag2)` computed by `angleAt` before the
clamp. -/
noncomputable def cosAngle (points : List Point) (i : ℕ) : ℝ :=
  let n := points.length
  let prev := points.getD ((i + n - 1) % n) default
  let curr := points.getD i default
  let next := points.getD ((i + 1) % n) default
  (((prev.x - curr.x : ℤ) : ℝ) * ((next.x - curr.x : ℤ) : ℝ) +
    ((prev.y - curr.y : ℤ) : ℝ) * ((next.y - curr.y : ℤ) : ℝ)) /
    (magPrev points i * magNext points i)

lemma angleAt_eq (points : List Point) (i : ℕ) :
    angleAt points i =
      Real.arccos (max (-1) (min 1 (cosAngle points i))) * (180 / Real.pi) := rfl

lemma prev_index_lt {n i : ℕ} (hn : 0 < n) : (i + n - 1) % n < n := Nat.mod_lt _ hn

lemma prev_index_succ {n i : ℕ} (hi : i < n) : ((i + n - 1) % n + 1) % n = i := by
  rcases Nat.eq_zero_or_pos i with rfl | hpos
  · have h1 : (0 + n - 1) % n = n - 1 := by
      rw [Nat.zero_add]
      exact Nat.mod_eq_of_lt (by omega)
    rw [h1, show n - 1 + 1 = n by omega, Nat.mod_self]
  · have h1 : i + n - 1 = (i - 1) + n := by omega
    rw [h1, Nat.add_mod_right, Nat.mod_eq_of_lt (by omega : i - 1 < n),
      show i - 1 + 1 = i by omega, Nat.mod_eq_of_lt hi]

lemma mag_ne_zero_of_ne {p q : Point} (h : p ≠ q) :
    Real.sqrt (((p.x - q.x : ℤ) : ℝ) * ((p.x - q.x : ℤ) : ℝ) +
      ((p.y - q.y : ℤ) : ℝ) * ((p.y - q.y : ℤ) : ℝ)) ≠ 0 := by
  have hne : p.x - q.x ≠ 0 ∨ p.y - q.y ≠ 0 := by
    by_contra hcon
    push_neg at hcon
    apply h
    have hx : p.x = q.x := by have := hcon.1; omega
    have hy : p.y = q.y := by have := hcon.2; omega
    cases p; cases q
    simp only at hx hy
    rw [hx, hy]
  have hpos : (0 : ℝ) < ((p.x - q.x : ℤ) : ℝ) * ((p.x - q.x : ℤ) : ℝ) +
      ((p.y - q.y : ℤ) : ℝ) * ((p.y - q.y : ℤ) : ℝ) := by
    rcases hne with hx | hy
    · have h1 : ((p.x - q.x : ℤ) : ℝ) ≠ 0 := by exact_mod_cast hx
      exact add_pos_of_pos_of_nonneg (mul_self_pos.mpr h1) (mul_self_nonneg _)
    · have h1 : ((p.y - q.y : ℤ) : ℝ) ≠ 0 := by exact_mod_cast hy
      exact add_pos_of_nonneg_of_pos (mul_self_nonneg _) (mul_self_pos.mpr h1)
  exact ne_of_gt (Real.sqrt_pos.mpr hpos)

lemma angleAt_bounds (points : List Point) (i : ℕ) :
    0 ≤ angleAt points i ∧ angleAt points i ≤ 180 := by
  rw [angleAt_eq]
  have hpi : (0 : ℝ) < Real.pi := Real.pi_pos
  constructor
  · exact mul_nonneg (Real.arccos_nonneg _) (by positivity)
  · have h1 : Real.arccos (max (-1) (min 1 (cosAngle points i))) ≤ Real.pi :=
      Real.arccos_le_pi _
    have h2 : Real.arccos (max (-1) (min 1 (cosAngle points i))) * (180 / Real.pi) ≤
        Real.pi * (180 / Real.pi) :=
      mul_le_mul_of_nonneg_right h1 (by positivity)
    calc Real.arccos (max (-1) (min 1 (cosAngle points i))) * (180 / Real.pi) ≤
          Real.pi * (180 / Real.pi) := h2
      _ = 180 := by field_simp

lemma calculateAngles_bounds (points : List Point) :
    ∀ a ∈ calculateAngles points, 0 ≤ a ∧ a ≤ 180 := by
  intro a ha
  unfold calculateAngles at ha
  obtain ⟨i, -, rfl⟩ := List.mem_map.mp ha
  exact angleAt_bounds points i

lemma clamp_mem_Icc (x : ℝ) : -1 ≤ max (-1) (min 1 x) ∧ max (-1) (min 1 x) ≤ 1 :=
  ⟨le_max_left _ _, max_le (by norm_num) (min_le_left _ _)⟩

lemma pointToLineDistance_degenerate (p a : Point) :
    pointToLineDistance p a a =
      Real.sqrt ((((p.x - a.x) ^ 2 + (p.y - a.y) ^ 2 : ℤ)) : ℝ) := by
  simp only [pointToLineDistance]
  have h0 : ((a.x - a.x : ℤ) : ℝ) = 0 := by norm_num
  have h0' : ((a.y - a.y : ℤ) : ℝ) = 0 := by norm_num
  rw [h0, h0']
  rw [if_neg (show ¬((0 : ℝ) * 0 + 0 * 0 ≠ 0) by norm_num)]
  rw [if_pos (show (-1 : ℝ) < 0 by norm_num)]
  congr 1
  push_cast
  ring

/-! ## Helper lemmas for evaluating the scan on concrete images -/

lemma floodFill_eval {binary visited : List Bool} {x y : ℤ} {w h : ℕ}
    (hB : (floodFillLoop binary w h (9 * w * h + 1) visited [⟨x, y⟩] [] []).2.2 ≠ []) :
    floodFill binary visited x y w h =
      ((floodFillLoop binary w h (9 * w * h + 1) visited [⟨x, y⟩] [] []).1,
        orderBoundaryPoints
          (floodFillLoop binary w h (9 * w * h + 1) visited [⟨x, y⟩] [] []).2.2
          (floodFillLoop binary w h (9 * w * h + 1) visited [⟨x, y⟩] [] []).2.1) := by
  unfold floodFill
  dsimp only
  rw [if_pos (List.length_pos.mpr hB)]

lemma findContoursGo_skip (binary : List Bool) (w h : ℕ) :
    ∀ (positions : List (ℕ × ℕ)) (visited : List Bool) (acc : List (List Point)),
      (∀ p ∈ positions, ¬(binary.getD (p.2 * w + p.1) false = true ∧
        ¬ visited.getD (p.2 * w + p.1) false = true)) →
      findContoursGo binary w h positions visited acc = acc := by
  intro positions
  induction positions with
  | nil => intro visited acc _; rfl
  | cons p rest ih =>
    intro visited acc hskip
    obtain ⟨x, y⟩ := p
    rw [findContoursGo, if_neg (hskip (x, y) (List.mem_cons_self ..))]
    exact ih visited acc fun q hq => hskip q (List.mem_cons_of_mem _ hq)

lemma findContoursGo_cons_pos {binary : List Bool} {w h x y : ℕ}
    {rest : List (ℕ × ℕ)} {visited : List Bool} {acc : List (List Point)}
    (hcond : binary.getD (y * w + x) false = true ∧
      ¬ visited.getD (y * w + x) false = true) :
    findContoursGo binary w h ((x, y) :: rest) visited acc =
      if 10 < (floodFill binary visited x y w h).2.length then
        findContoursGo binary w h rest (floodFill binary visited x y w h).1
          (acc ++ [(floodFill binary visited x y w h).2])
      else
        findContoursGo binary w h rest (floodFill binary visited x y w h).1 acc := by
  rw [findContoursGo, if_pos hcond]

/-! ## Concrete evaluation: the 4×3 all-dark image (claim C1) -/

lemma mask4x3_eval :
    findContours (List.replicate 12 true) 4 3 = [] := by
  unfold findContours
  have hpos : scanPositions 4 3 =
      [(0,0),(1,0),(2,0),(3,0),(0,1),(1,1),(2,1),(3,1),(0,2),(1,2),(2,2),(3,2)] := by decide
  rw [hpos]
  rw [findContoursGo_cons_pos (by decide)]
  have hB : (floodFillLoop (List.replicate 12 true) 4 3 (9 * 4 * 3 + 1)
      (List.replicate (4 * 3) false) [⟨((0:ℕ) : ℤ), ((0:ℕ) : ℤ)⟩] [] []).2.2 ≠ [] := by decide
  rw [floodFill_eval hB]
  dsimp only
  have hlen : (orderBoundaryPoints
      (floodFillLoop (List.replicate 12 true) 4 3 (9 * 4 * 3 + 1)
        (List.replicate (4 * 3) false) [⟨((0:ℕ) : ℤ), ((0:ℕ) : ℤ)⟩] [] []).2.2
      (floodFillLoop (List.replicate 12 true) 4 3 (9 * 4 * 3 + 1)
        (List.replicate (4 * 3) false) [⟨((0:ℕ) : ℤ), ((0:ℕ) : ℤ)⟩] [] []).2.1).length = 10 := by
    rw [orderBoundaryPoints_length _ hB]
    decide
  rw [if_neg (by rw [hlen]; decide)]
  apply findContoursGo_skip
  decide

/-! ## Concrete evaluation: the 5×5 all-dark image (witness input) -/

lemma mask5x5_eval :
    findContours (List.replicate 25 true) 5 5 =
      [(floodFill (List.replicate 25 true) (List.replicate (5 * 5) false)
        ((0:ℕ) : ℤ) ((0:ℕ) : ℤ) 5 5).2] := by
  unfold findContours
  have hpos : scanPositions 5 5 =
      [(0,0),(1,0),(2,0),(3,0),(4,0),(0,1),(1,1),(2,1),(3,1),(4,1),
       (0,2),(1,2),(2,2),(3,2),(4,2),(0,3),(1,3),(2,3),(3,3),(4,3),
       (0,4),(1,4),(2,4),(3,4),(4,4)] := by decide
  rw [hpos]
  rw [findContoursGo_cons_pos (by decide)]
  have hB : (floodFillLoop (List.replicate 25 true) 5 5 (9 * 5 * 5 + 1)
      (List.replicate (5 * 5) false) [⟨((0:ℕ) : ℤ), ((0:ℕ) : ℤ)⟩] [] []).2.2 ≠ [] := by decide
  rw [floodFill_eval hB]
  dsimp only
  have hlen : (orderBoundaryPoints
      (floodFillLoop (List.replicate 25 true) 5 5 (9 * 5 * 5 + 1)
        (List.replicate (5 * 5) false) [⟨((0:ℕ) : ℤ), ((0:ℕ) : ℤ)⟩] [] []).2.2
      (floodFillLoop (List.replicate 25 true) 5 5 (9 * 5 * 5 + 1)
        (List.replicate (5 * 5) false) [⟨((0:ℕ) : ℤ), ((0:ℕ) : ℤ)⟩] [] []).2.1).length = 16 := by
    rw [orderBoundaryPoints_length _ hB]
    decide
  rw [if_pos (by rw [hlen]; decide)]
  rw [findContoursGo_skip _ _ _ _ _ _ (by decide)]
  rfl

/-! ## Concrete evaluation: an 8×5 L-shaped image through the whole pipeline -/

/-- RGBA buffer of an 8×5 image whose left column and top row are black
(`[0,0,0,255]`) and whose other pixels are white. -/
def lData : List ℕ :=
  (List.range 40).flatMap fun i =>
    if i % 8 = 0 ∨ i / 8 = 0 then [0, 0, 0, 255] else [255, 255, 255, 255]

/-- The binary mask the binarizer produces from `lData`. -/
def lMask : List Bool :=
  [true, true, true, true, true, true, true, true, true, false, false, false, false, false, false, false, true, false, false, false, false, false, false, false, true, false, false, false, false, false, false, false, true, false, false, false, false, false, false, false]

/-- The single ordered contour the scanner emits on `lMask`. -/
def lContour : List Point :=
  [⟨0,0⟩, ⟨0,1⟩, ⟨0,2⟩, ⟨0,3⟩, ⟨0,4⟩, ⟨1,0⟩, ⟨2,0⟩, ⟨3,0⟩, ⟨4,0⟩, ⟨5,0⟩, ⟨6,0⟩, ⟨7,0⟩]

/-- The Douglas–Peucker simplification of `lContour` at ε = 2. -/
def lSimp : List Point := [⟨0,0⟩, ⟨0,4⟩, ⟨1,0⟩, ⟨7,0⟩]

lemma lMask_eval : createBinaryImage lData 8 5 = lMask := by
  rw [createBinaryImage_eq_b]
  decide

lemma lContours_eval : findContours lMask 8 5 = [lContour] := by
  unfold findContours
  have hpos : scanPositions 8 5 =
      [(0,0), (1,0), (2,0), (3,0), (4,0), (5,0), (6,0), (7,0), (0,1), (1,1), (2,1), (3,1), (4,1), (5,1), (6,1), (7,1), (0,2), (1,2), (2,2), (3,2), (4,2), (5,2), (6,2), (7,2), (0,3), (1,3), (2,3), (3,3), (4,3), (5,3), (6,3), (7,3), (0,4), (1,4), (2,4), (3,4), (4,4), (5,4), (6,4), (7,4)] := by decide
  rw [hpos]
  rw [findContoursGo_cons_pos (by decide)]
  have hB : (floodFillLoop lMask 8 5 (9 * 8 * 5 + 1) (List.replicate (8 * 5) false)
      [⟨((0:ℕ) : ℤ), ((0:ℕ) : ℤ)⟩] [] []).2.2 ≠ [] := by decide
  rw [floodFill_eval hB]
  dsimp only
  have hord : orderBoundaryPoints
      (floodFillLoop lMask 8 5 (9 * 8 * 5 + 1) (List.replicate (8 * 5) false)
        [⟨((0:ℕ) : ℤ), ((0:ℕ) : ℤ)⟩] [] []).2.2
      (floodFillLoop lMask 8 5 (9 * 8 * 5 + 1) (List.replicate (8 * 5) false)
        [⟨((0:ℕ) : ℤ), ((0:ℕ) : ℤ)⟩] [] []).2.1 = lContour := by
    rw [orderBoundaryPoints_eq_sq]
    decide
  rw [hord]
  rw [if_pos (by decide : 10 < lContour.length)]
  rw [findContoursGo_skip _ _ _ _ _ _ (by decide)]
  rfl

lemma lSimp_eval : simplifyContour lContour 2 = lSimp := by
  rw [simplifyContour_eq_pair]
  decide

lemma lShape_pipeline : ∃ s, (detectShapes lData 8 5 0 1).shapes = [s] := by
  obtain ⟨s, hs, -⟩ := @classifyShape_isSome lSimp lContour (by decide) (by decide)
  refine ⟨s, ?_⟩
  unfold detectShapes
  dsimp only
  rw [lMask_eval, lContours_eval]
  unfold accumulateShapes
  rw [List.foldl_cons]
  dsimp only
  rw [lSimp_eval]
  rw [if_neg (by decide : ¬ lContour.length < 3)]
  rw [if_neg (by decide : ¬ lSimp.length < 3)]
  rw [hs]
  rfl

/-! ## Concrete evaluation: classifying a 3–4–5 right triangle -/

/-- A three-vertex polygon: the 3–4–5 right triangle. -/
def tri3 : List Point := [⟨0,0⟩, ⟨3,0⟩, ⟨3,4⟩]

lemma classify_tri : ∃ s, classifyShape tri3 tri3 = some s ∧
    s.type = ShapeType.triangle ∧ s.confidence = 0.95 := by
  simp only [classifyShape]
  split_ifs with h1 h2 h3
  · exact absurd h1.2 (by decide)
  · refine ⟨_, rfl, rfl, ?_⟩
    show min 1 (0.85 + (0.1:ℝ)) = 0.95
    rw [min_eq_right (by norm_num : (0.85 + 0.1 : ℝ) ≤ 1)]
    norm_num
  · exact absurd (by decide : tri3.length = 3) h3
  all_goals exact absurd (Or.inl (by decide)) h2

/-! ## Concrete evaluation: a 7×6 image whose single dark component yields a
self-crossing ordered contour with shoelace area 87/2 > 42 (claim C4) -/

/-- The binary mask of the 7×6 counterexample image: one 8-connected dark
component whose greedily ordered boundary crosses itself. -/
def c4Mask : List Bool :=
  [true, true, true, false, true, false, true, true, true, true, true, true, true, true, true, false, false, false, true, false, true, true, false, true, true, false, true, true, false, true, true, true, true, true, false, true, false, true, false, true, false, true]

/-- RGBA buffer producing `c4Mask`: black (`[0,0,0,255]`) where the mask is
set, white (`[255,255,255,255]`) elsewhere. -/
def c4Data : List ℕ :=
  c4Mask.flatMap fun b => if b then [0, 0, 0, 255] else [255, 255, 255, 255]

/-- The visited array after flood-filling the component of `(0,0)` in
`c4Mask`: exactly the mask itself (the component covers every dark pixel). -/
def c4Visited : List Bool :=
  [true, true, true, false, true, false, true, true, true, true, true, true, true, true, true, false, false, false, true, false, true, true, false, true, true, false, true, true, false, true, true, true, true, true, false, true, false, true, false, true, false, true]

/-- All 29 pixels of the component of `(0,0)` in `c4Mask`, in fill order. -/
def c4All : List Point :=
  [⟨0, 0⟩, ⟨1, 1⟩, ⟨0, 2⟩, ⟨0, 3⟩, ⟨1, 4⟩, ⟨2, 5⟩, ⟨3, 4⟩, ⟨4, 5⟩, ⟨5, 4⟩, ⟨6, 5⟩, ⟨4, 4⟩, ⟨5, 3⟩, ⟨6, 3⟩, ⟨6, 2⟩, ⟨6, 1⟩, ⟨5, 1⟩, ⟨4, 2⟩, ⟨3, 3⟩, ⟨2, 4⟩, ⟨2, 3⟩, ⟨4, 1⟩, ⟨3, 1⟩, ⟨2, 1⟩, ⟨2, 0⟩, ⟨1, 0⟩, ⟨0, 1⟩, ⟨4, 0⟩, ⟨6, 0⟩, ⟨0, 5⟩]

/-- The boundary pixels of that component, in fill order (here every
component pixel touches a light pixel or the border, so all 29 qualify). -/
def c4Bps : List Point :=
  [⟨0, 0⟩, ⟨1, 1⟩, ⟨0, 2⟩, ⟨0, 3⟩, ⟨1, 4⟩, ⟨2, 5⟩, ⟨3, 4⟩, ⟨4, 5⟩, ⟨5, 4⟩, ⟨6, 5⟩, ⟨4, 4⟩, ⟨5, 3⟩, ⟨6, 3⟩, ⟨6, 2⟩, ⟨6, 1⟩, ⟨5, 1⟩, ⟨4, 2⟩, ⟨3, 3⟩, ⟨2, 4⟩, ⟨2, 3⟩, ⟨4, 1⟩, ⟨3, 1⟩, ⟨2, 1⟩, ⟨2, 0⟩, ⟨1, 0⟩, ⟨0, 1⟩, ⟨4, 0⟩, ⟨6, 0⟩, ⟨0, 5⟩]

/-- The ordered contour built from `c4Bps` by the greedy nearest-neighbour
walk; its closing edges cross the polygon, so the shoelace sum winds twice
over part of the image. -/
def c4Contour : List Point :=
  [⟨0, 0⟩, ⟨1, 0⟩, ⟨1, 1⟩, ⟨2, 1⟩, ⟨3, 1⟩, ⟨4, 1⟩, ⟨5, 1⟩, ⟨6, 1⟩, ⟨6, 2⟩, ⟨6, 3⟩, ⟨5, 3⟩, ⟨5, 4⟩, ⟨4, 4⟩, ⟨3, 4⟩, ⟨3, 3⟩, ⟨2, 3⟩, ⟨2, 4⟩, ⟨1, 4⟩, ⟨0, 3⟩, ⟨0, 2⟩, ⟨0, 1⟩, ⟨2, 0⟩, ⟨4, 0⟩, ⟨4, 2⟩, ⟨6, 0⟩, ⟨6, 5⟩, ⟨4, 5⟩, ⟨2, 5⟩, ⟨0, 5⟩]

/-- The Douglas–Peucker simplification of `c4Contour` at ε = 2. -/
def c4Simp : List Point :=
  [⟨0, 0⟩, ⟨6, 1⟩, ⟨5, 4⟩, ⟨1, 4⟩, ⟨0, 1⟩, ⟨6, 0⟩, ⟨6, 5⟩, ⟨0, 5⟩]

lemma c4Mask_eval : createBinaryImage c4Data 7 6 = c4Mask := by
  rw [createBinaryImage_eq_b]
  decide

lemma c4_flood :
    floodFillLoop c4Mask 7 6 (9 * 7 * 6 + 1) (List.replicate (7 * 6) false)
      [⟨((0:ℕ) : ℤ), ((0:ℕ) : ℤ)⟩] [] [] = (c4Visited, c4All, c4Bps) := by
  decide

lemma c4Contours_eval : findContours c4Mask 7 6 = [c4Contour] := by
  unfold findContours
  have hpos : scanPositions 7 6 =
      [(0,0), (1,0), (2,0), (3,0), (4,0), (5,0), (6,0), (0,1), (1,1), (2,1), (3,1), (4,1), (5,1), (6,1), (0,2), (1,2), (2,2), (3,2), (4,2), (5,2), (6,2), (0,3), (1,3), (2,3), (3,3), (4,3), (5,3), (6,3), (0,4), (1,4), (2,4), (3,4), (4,4), (5,4), (6,4), (0,5), (1,5), (2,5), (3,5), (4,5), (5,5), (6,5)] := by decide
  rw [hpos]
  rw [findContoursGo_cons_pos (by decide)]
  have hB : (floodFillLoop c4Mask 7 6 (9 * 7 * 6 + 1)
      (List.replicate (7 * 6) false) [⟨((0:ℕ) : ℤ), ((0:ℕ) : ℤ)⟩] [] []).2.2 ≠ [] := by
    rw [c4_flood]
    decide
  rw [floodFill_eval hB]
  rw [c4_flood]
  dsimp only
  have hord : orderBoundaryPoints c4Bps c4All = c4Contour := by
    rw [orderBoundaryPoints_eq_sq]
    decide
  rw [hord]
  rw [if_pos (by decide : 10 < c4Contour.length)]
  rw [findContoursGo_skip _ _ _ _ _ _ (by decide)]
  rfl

lemma c4Simp_eval : simplifyContour c4Contour 2 = c4Simp := by
  rw [simplifyContour_eq_pair]
  decide

lemma c4_pipeline :
    ∃ s, (detectShapes c4Data 7 6 0 0).shapes = [s] ∧ s.area = 87 / 2 := by
  obtain ⟨s, hs, harea⟩ := @classifyShape_isSome c4Simp c4Contour (by decide) (by decide)
  refine ⟨s, ?_, ?_⟩
  · unfold detectShapes
    dsimp only
    rw [c4Mask_eval, c4Contours_eval]
    unfold accumulateShapes
    rw [List.foldl_cons]
    dsimp only
    rw [c4Simp_eval]
    rw [if_neg (by decide : ¬ c4Contour.length < 3)]
    rw [if_neg (by decide : ¬ c4Simp.length < 3)]
    rw [hs]
    rfl
  · rw [harea]
    show calculateArea c4Contour = 87 / 2
    unfold calculateArea
    rw [show shoelaceSum c4Contour = 87 from by decide]
    norm_num

/-! ## The claims -/

/-- C1 (amended): the noise filter of `findContours` tests the length of the
contour actually returned by `floodFill` — the ordered boundary of the
component, not the component's full pixel set.  Every emitted contour has
more than 10 points, but a component with more than 10 dark pixels can still
be discarded when its boundary has at most 10 pixels. -/
theorem claim_C1 {binary : List Bool} {width height : ℕ} {c : List Point}
    (h : c ∈ findContours binary width height) : 10 < c.length :=
  findContours_length h

/-- C1, counterexample to the original claim: in the all-dark 4×3 image the
single connected component has 12 > 10 pixels, yet `findContours` emits no
contour for it, because the filter sees the 10-point ordered boundary. -/
theorem claim_C1_counterexample :
    (floodFillLoop (List.replicate 12 true) 4 3 (9 * 4 * 3 + 1)
        (List.replicate (4 * 3) false) [⟨((0:ℕ) : ℤ), ((0:ℕ) : ℤ)⟩] [] []).2.1.length = 12 ∧
    (floodFillLoop (List.replicate 12 true) 4 3 (9 * 4 * 3 + 1)
        (List.replicate (4 * 3) false) [⟨((0:ℕ) : ℤ), ((0:ℕ) : ℤ)⟩] [] []).2.2.length = 10 ∧
    findContours (List.replicate 12 true) 4 3 = [] :=
  ⟨by decide, by decide, mask4x3_eval⟩

/-- C1, witness: on the all-dark 5×5 image the scan emits one contour, and
that contour has more than 10 points. -/
theorem claim_C1_witness :
    (floodFill (List.replicate 25 true) (List.replicate (5 * 5) false)
        ((0:ℕ) : ℤ) ((0:ℕ) : ℤ) 5 5).2 ∈ findContours (List.replicate 25 true) 5 5 ∧
    10 < (floodFill (List.replicate 25 true) (List.replicate (5 * 5) false)
        ((0:ℕ) : ℤ) ((0:ℕ) : ℤ) 5 5).2.length := by
  have hmem : (floodFill (List.replicate 25 true) (List.replicate (5 * 5) false)
      ((0:ℕ) : ℤ) ((0:ℕ) : ℤ) 5 5).2 ∈ findContours (List.replicate 25 true) 5 5 := by
    rw [mask5x5_eval]
    exact List.mem_singleton.mpr rfl
  exact ⟨hmem, claim_C1 hmem⟩

/-- C2: every shape `classifyShape` labels `triangle` comes from a simplified
polygon with exactly 3 vertices, and its confidence is exactly 0.95: the
disjunct allowing 4 or 5 vertices is unreachable because `isTriangle`
requires exactly 3 points. -/
theorem claim_C2 {simplified contour : List Point} {s : DetectedShape}
    (h : classifyShape simplified contour = some s)
    (ht : s.type = ShapeType.triangle) :
    simplified.length = 3 ∧ s.confidence = 0.95 :=
  classifyShape_triangle h ht

/-- C2, witness: the 3–4–5 right triangle is classified as a triangle and
the claim instantiates to it. -/
theorem claim_C2_witness :
    ∃ s, classifyShape tri3 tri3 = some s ∧ s.type = ShapeType.triangle ∧
      tri3.length = 3 ∧ s.confidence = 0.95 := by
  obtain ⟨s, hs, ht, -⟩ := classify_tri
  exact ⟨s, hs, ht, (claim_C2 hs ht).1, (claim_C2 hs ht).2⟩

/-- C3: every shape in a detection result has `0 ≤ confidence ≤ 1`: each
branch of the classifier assigns a nonnegative confidence, and the final
`min 1` clamp bounds it by 1. -/
theorem claim_C3 {data : List ℕ} {width height : ℕ} {startTime endTime : ℝ}
    {s : DetectedShape}
    (h : s ∈ (detectShapes data width height startTime endTime).shapes) :
    0 ≤ s.confidence ∧ s.confidence ≤ 1 := by
  obtain ⟨contour, -, -, -, hcl⟩ := mem_detectShapes h
  exact classifyShape_confidence hcl

/-- C3, witness: the shape detected in the 8×5 L-shaped image has its
confidence inside `[0, 1]`. -/
theorem claim_C3_witness :
    ∃ s, s ∈ (detectShapes lData 8 5 0 1).shapes ∧
      0 ≤ s.confidence ∧ s.confidence ≤ 1 := by
  obtain ⟨s, hs⟩ := lShape_pipeline
  have hmem : s ∈ (detectShapes lData 8 5 0 1).shapes := by
    rw [hs]
    exact List.mem_singleton.mpr rfl
  exact ⟨s, hmem, (claim_C3 hmem).1, (claim_C3 hmem).2⟩

/-- C4 (amended): every shape in a detection result has `area ≥ 0` — it is
half the absolute shoelace sum of the ordered contour.  The upper bound
`area ≤ width · height` of the original claim is false: the greedily ordered
contour can cross itself and wind twice over part of the image. -/
theorem claim_C4 {data : List ℕ} {width height : ℕ} {startTime endTime : ℝ}
    {s : DetectedShape}
    (h : s ∈ (detectShapes data width height startTime endTime).shapes) :
    0 ≤ s.area := by
  obtain ⟨contour, -, -, -, hcl⟩ := mem_detectShapes h
  rw [(classifyShape_fields hcl).2.2]
  exact calculateArea_nonneg contour

/-- C4, counterexample to the original claim: the 7×6 image `c4Data` yields a
detected shape whose area `87/2` exceeds `7 · 6 = 42`. -/
theorem claim_C4_counterexample :
    ∃ s, s ∈ (detectShapes c4Data 7 6 0 0).shapes ∧ (7 : ℚ) * 6 < s.area := by
  obtain ⟨s, hs, harea⟩ := c4_pipeline
  refine ⟨s, ?_, ?_⟩
  · rw [hs]
    exact List.mem_singleton.mpr rfl
  · rw [harea]
    norm_num

/-- C4, witness: the shape detected in the 8×5 L-shaped image has
nonnegative area. -/
theorem claim_C4_witness :
    ∃ s, s ∈ (detectShapes lData 8 5 0 1).shapes ∧ 0 ≤ s.area := by
  obtain ⟨s, hs⟩ := lShape_pipeline
  have hmem : s ∈ (detectShapes lData 8 5 0 1).shapes := by
    rw [hs]
    exact List.mem_singleton.mpr rfl
  exact ⟨s, hmem, claim_C4 hmem⟩

/-- C5: `simplifyContour` returns inputs of length ≤ 2 unchanged, and on
longer inputs returns an ordered subsequence (`Sublist`) of at least 2
points whose first and last elements are the input's first and last. -/
theorem claim_C5 (l : List Point) :
    (l.length ≤ 2 → simplifyContour l 2 = l) ∧
    (2 < l.length →
      (simplifyContour l 2).Sublist l ∧ 2 ≤ (simplifyContour l 2).length ∧
      (simplifyContour l 2).head? = l.head? ∧
      (simplifyContour l 2).getLast? = l.getLast?) := by
  obtain ⟨hsub, hlen, hhead, hlast, hid⟩ := simplifyContour_spec l
  refine ⟨hid, fun h2 => ⟨hsub, ?_, hhead, hlast⟩⟩
  rw [min_eq_left (by omega : 2 ≤ l.length)] at hlen
  exact hlen

/-- C5, witness: three collinear points simplify to an ordered subsequence of
at least two points with the endpoints preserved. -/
theorem claim_C5_witness :
    2 < ([⟨0,0⟩, ⟨1,0⟩, ⟨2,0⟩] : List Point).length ∧
    (simplifyContour [⟨0,0⟩, ⟨1,0⟩, ⟨2,0⟩] 2).Sublist [⟨0,0⟩, ⟨1,0⟩, ⟨2,0⟩] ∧
    2 ≤ (simplifyContour [⟨0,0⟩, ⟨1,0⟩, ⟨2,0⟩] 2).length ∧
    (simplifyContour [⟨0,0⟩, ⟨1,0⟩, ⟨2,0⟩] 2).head? = some ⟨0,0⟩ ∧
    (simplifyContour [⟨0,0⟩, ⟨1,0⟩, ⟨2,0⟩] 2).getLast? = some ⟨2,0⟩ := by
  have h := (claim_C5 [⟨0,0⟩, ⟨1,0⟩, ⟨2,0⟩]).2 (by decide)
  exact ⟨by decide, h.1, h.2.1, h.2.2.1, h.2.2.2⟩

/-- C6: on a nonempty duplicate-free boundary list the greedy orderer
terminates with a sequence of the same length containing each input boundary
point exactly once (the Euclidean fallback always selects a point while the
remaining set is nonempty, so each iteration removes exactly one point). -/
theorem claim_C6 {boundaryPoints : List Point} (allPoints : List Point)
    (hne : boundaryPoints ≠ []) (hnd : boundaryPoints.Nodup) :
    (orderBoundaryPoints boundaryPoints allPoints).length = boundaryPoints.length ∧
    ∀ p ∈ boundaryPoints, (orderBoundaryPoints boundaryPoints allPoints).count p = 1 := by
  refine ⟨orderBoundaryPoints_length allPoints hne, fun p hp => ?_⟩
  rw [(orderBoundaryPoints_perm allPoints hne).count_eq]
  exact List.count_eq_one_of_mem hnd hp

/-- C6, witness: ordering three distinct collinear boundary points returns
three points with the middle one occurring exactly once. -/
theorem claim_C6_witness :
    (orderBoundaryPoints [⟨0,0⟩, ⟨1,0⟩, ⟨2,0⟩] []).length = 3 ∧
    (orderBoundaryPoints [⟨0,0⟩, ⟨1,0⟩, ⟨2,0⟩] []).count ⟨1,0⟩ = 1 := by
  have h := @claim_C6 [⟨0,0⟩, ⟨1,0⟩, ⟨2,0⟩] [] (by decide) (by decide)
  exact ⟨h.1, h.2 ⟨1,0⟩ (by decide)⟩

/-- C7: `detectShapes` is deterministic modulo `processingTime`: for fixed
pixel buffer, width and height, the `shapes` list and the image dimensions of
the result do not depend on the timing readings, which only enter the
`processingTime` field. -/
theorem claim_C7 (data : List ℕ) (width height : ℕ) (t1 t2 t1' t2' : ℝ) :
    (detectShapes data width height t1 t2).shapes =
      (detectShapes data width height t1' t2').shapes ∧
    (detectShapes data width height t1 t2).imageWidth =
      (detectShapes data width height t1' t2').imageWidth ∧
    (detectShapes data width height t1 t2).imageHeight =
      (detectShapes data width height t1' t2').imageHeight :=
  ⟨rfl, rfl, rfl⟩

/-- C8: every detected shape's center lies within its own bounding box — the
center is the bounding-box midpoint, and the box of a nonempty contour has
width and height at least 1. -/
theorem claim_C8 {data : List ℕ} {width height : ℕ} {startTime endTime : ℝ}
    {s : DetectedShape}
    (h : s ∈ (detectShapes data width height startTime endTime).shapes) :
    (s.boundingBox.x : ℚ) ≤ s.center.1 ∧
    s.center.1 ≤ (s.boundingBox.x : ℚ) + (s.boundingBox.width : ℚ) ∧
    (s.boundingBox.y : ℚ) ≤ s.center.2 ∧
    s.center.2 ≤ (s.boundingBox.y : ℚ) + (s.boundingBox.height : ℚ) := by
  obtain ⟨contour, -, h3, -, hcl⟩ := mem_detectShapes h
  have hne : contour ≠ [] := by
    intro hc
    rw [hc] at h3
    simp at h3
  obtain ⟨hw, hh⟩ := calculateBounds_dims hne
  obtain ⟨hbb, hc, -⟩ := classifyShape_fields hcl
  rw [hbb, hc]
  dsimp only
  have hwQ : (1 : ℚ) ≤ ((calculateBounds contour).width : ℚ) := by exact_mod_cast hw
  have hhQ : (1 : ℚ) ≤ ((calculateBounds contour).height : ℚ) := by exact_mod_cast hh
  refine ⟨by linarith, by linarith, by linarith, by linarith⟩

/-- C8, witness: the center of the shape detected in the 8×5 L-shaped image
lies inside its bounding box. -/
theorem claim_C8_witness :
    ∃ s, s ∈ (detectShapes lData 8 5 0 1).shapes ∧
      (s.boundingBox.x : ℚ) ≤ s.center.1 ∧
      s.center.1 ≤ (s.boundingBox.x : ℚ) + (s.boundingBox.width : ℚ) ∧
      (s.boundingBox.y : ℚ) ≤ s.center.2 ∧
      s.center.2 ≤ (s.boundingBox.y : ℚ) + (s.boundingBox.height : ℚ) := by
  obtain ⟨s, hs⟩ := lShape_pipeline
  have hmem : s ∈ (detectShapes lData 8 5 0 1).shapes := by
    rw [hs]
    exact List.mem_singleton.mpr rfl
  exact ⟨s, hmem, claim_C8 hmem⟩

/-- C9: `detectShapes` never modifies the caller's pixel buffer: with the
buffer threaded as explicit state through the binarizer — the only phase
that touches it — the buffer coming out is the buffer that went in. -/
theorem claim_C9 (data : List ℕ) (width height : ℕ) (startTime endTime : ℝ) :
    (detectShapesRun data width height startTime endTime).2 = data := by
  show (createBinaryImageRun data width height).2 = data
  rw [createBinaryImageRun_spec]

/-- C10: when consecutive vertices are pairwise distinct, `calculateAngles`
never divides by zero (both magnitude factors and their product are nonzero),
the clamped cosine handed to `arccos` lies in `[−1, 1]`, and every angle is a
well-defined number in `[0, 180]`; and `pointToLineDistance` is total on a
degenerate segment, where the `lenSq = 0` guard makes it return the plain
distance to the segment's point. -/
theorem claim_C10 (points : List Point)
    (hd : ∀ i < points.length,
      points.getD i default ≠ points.getD ((i + 1) % points.length) default) :
    (∀ i < points.length,
      magPrev points i ≠ 0 ∧ magNext points i ≠ 0 ∧
      magPrev points i * magNext points i ≠ 0 ∧
      -1 ≤ max (-1) (min 1 (cosAngle points i)) ∧
      max (-1) (min 1 (cosAngle points i)) ≤ 1 ∧
      0 ≤ angleAt points i ∧ angleAt points i ≤ 180) ∧
    (∀ p a : Point, pointToLineDistance p a a =
      Real.sqrt (((p.x - a.x) ^ 2 + (p.y - a.y) ^ 2 : ℤ) : ℝ)) := by
  refine ⟨fun i hi => ?_, fun p a => pointToLineDistance_degenerate p a⟩
  have hn : 0 < points.length := lt_of_le_of_lt (Nat.zero_le i) hi
  have hnext := hd i hi
  have hmn : magNext points i ≠ 0 := mag_ne_zero_of_ne (Ne.symm hnext)
  have hj := hd ((i + points.length - 1) % points.length) (prev_index_lt hn)
  rw [prev_index_succ hi] at hj
  have hmp : magPrev points i ≠ 0 := mag_ne_zero_of_ne hj
  exact ⟨hmp, hmn, mul_ne_zero hmp hmn, (clamp_mem_Icc _).1, (clamp_mem_Icc _).2,
    (angleAt_bounds points i).1, (angleAt_bounds points i).2⟩

/-- The unit square, witness polygon for C10. -/
def sq4 : List Point := [⟨0,0⟩, ⟨1,0⟩, ⟨1,1⟩, ⟨0,1⟩]

/-- C10, witness: the unit square has pairwise-distinct consecutive vertices
and the claim instantiates at its first vertex. -/
theorem claim_C10_witness :
    (∀ i < sq4.length, sq4.getD i default ≠ sq4.getD ((i + 1) % sq4.length) default) ∧
    (magPrev sq4 0 ≠ 0 ∧ magNext sq4 0 ≠ 0 ∧
      magPrev sq4 0 * magNext sq4 0 ≠ 0 ∧
      -1 ≤ max (-1) (min 1 (cosAngle sq4 0)) ∧
      max (-1) (min 1 (cosAngle sq4 0)) ≤ 1 ∧
      0 ≤ angleAt sq4 0 ∧ angleAt sq4 0 ≤ 180) := by
  have hd : ∀ i < sq4.length,
      sq4.getD i default ≠ sq4.getD ((i + 1) % sq4.length) default := by decide
  exact ⟨hd, (claim_C10 sq4 hd).1 0 (by decide)⟩
